import Mathlib

/-
Verification of the Atomberg-Fan-Control protocol layer
(`control_gui.py`, `control.py`).

Shallow embedding conventions:
* Python `str` is a sequence of Unicode code points; we model it as
  `List Nat` (named `Text`).  Raw UDP payloads are byte lists (`Bytes`).
* `json.loads` / `json.dumps` are modelled by an executable JSON parser /
  serializer over `Text` below.  JSON numbers keep their source literal
  (the listener never uses a parsed numeric value, only truthiness).
* The Python `set` used for message deduplication has an unspecified
  iteration order; the model keeps the set as an insertion-ordered
  duplicate-free list and takes the iteration order used by
  `list(self.processed_messages)` as an explicit `order` parameter
  (any permutation of the set's elements is a possible behavior).
* Machine arithmetic: Python integers are unbounded (`Int`); the float
  divisions in `decode_state_value` are exact (the masks are multiples of
  the divisors and the values fit a double), so `round` over `ℚ` models
  them faithfully.
-/

namespace FanControl

/-- Python `str`, as its sequence of Unicode code points. -/
abbrev Text := List Nat

/-- A raw datagram payload: a list of byte values. -/
abbrev Bytes := List Nat

/-- Code points of a Lean string literal (used to write concrete inputs). -/
def strCps (s : String) : Text := s.data.map Char.toNat

/-! ## Whitespace, `str.strip`, hex digits -/

/-- The code points Python's `str.strip()` removes (`str.isspace`). -/
def pyIsSpace (c : Nat) : Bool :=
  (9 ≤ c && c ≤ 13) || (28 ≤ c && c ≤ 32) || c == 0x85 || c == 0xA0 ||
  c == 0x1680 || (0x2000 ≤ c && c ≤ 0x200A) || c == 0x2028 || c == 0x2029 ||
  c == 0x202F || c == 0x205F || c == 0x3000

/-- JSON insignificant whitespace (what `json.loads` skips): space, tab, LF, CR. -/
def jsonIsSpace (c : Nat) : Bool := c == 32 || c == 9 || c == 10 || c == 13

/-- Drop a trailing run of characters satisfying `p`. -/
def dropTrailing (p : Nat → Bool) (l : Text) : Text :=
  (l.reverse.dropWhile p).reverse

/-- Python `str.strip()`. -/
def pyStrip (t : Text) : Text := dropTrailing pyIsSpace (t.dropWhile pyIsSpace)

/-- Strip JSON whitespace from both ends (top level of `json.loads`). -/
def jsonTrim (t : Text) : Text := dropTrailing jsonIsSpace (t.dropWhile jsonIsSpace)

/-- Membership in `'0123456789abcdefABCDEF'` (the hex heuristic of the listener). -/
def isHexDigitCp (c : Nat) : Bool :=
  (48 ≤ c && c ≤ 57) || (97 ≤ c && c ≤ 102) || (65 ≤ c && c ≤ 70)

/-- ASCII decimal digit. -/
def isDigitCp (c : Nat) : Bool := 48 ≤ c && c ≤ 57

/-! ## `bytes.fromhex` and hex encoding -/

/-- Value of a hex digit character. -/
def hexVal (c : Nat) : Nat :=
  if 48 ≤ c ∧ c ≤ 57 then c - 48 else if 97 ≤ c then c - 87 else c - 55

/-- `bytes.fromhex` (at its call site the input is all hex digits, so the
whitespace-skipping of the Python function never triggers); an odd-length
or non-hex input raises `ValueError`, modelled as `none`. -/
def bytesFromHex : Text → Option Bytes
  | [] => some []
  | c1 :: c2 :: rest =>
    if isHexDigitCp c1 && isHexDigitCp c2 then
      (bytesFromHex rest).map (fun bs => (hexVal c1 * 16 + hexVal c2) :: bs)
    else none
  | [_] => none

/-- Lower-case hex digit character for a value `< 16`. -/
def hexDigitCp (n : Nat) : Nat := if n < 10 then 48 + n else 87 + n

/-- Lower-case hex encoding of a byte string (`bytes.hex()`). -/
def bytesToHex : Bytes → Text
  | [] => []
  | b :: rest => hexDigitCp (b / 16) :: hexDigitCp (b % 16) :: bytesToHex rest

/-! ## UTF-8 (Python's strict codec) -/

/-- UTF-8 encoding of one code point (callers only use valid, non-surrogate
code points, as Python `str.encode('utf-8')` enforces). -/
def utf8EncodeChar (c : Nat) : Bytes :=
  if c < 0x80 then [c]
  else if c < 0x800 then [0xC0 + c / 64, 0x80 + c % 64]
  else if c < 0x10000 then [0xE0 + c / 4096, 0x80 + c / 64 % 64, 0x80 + c % 64]
  else [0xF0 + c / 262144, 0x80 + c / 4096 % 64, 0x80 + c / 64 % 64, 0x80 + c % 64]

/-- `str.encode('utf-8')`. -/
def utf8Encode (t : Text) : Bytes := t.flatMap utf8EncodeChar

/-- UTF-8 continuation byte. -/
def isCont (b : Nat) : Bool := 0x80 ≤ b && b < 0xC0

/-- Strict UTF-8 decoding, as a byte-level state machine: `need` is the
number of continuation bytes still expected, `acc` the code point bits
accumulated so far, `minv` the smallest legal value of the current
sequence (overlong rejection).  Surrogates and values above `0x10FFFF`
are rejected on completion. -/
def utf8DecodeAux : Nat → Nat → Nat → Bytes → Option Text
  | 0, _, _, [] => some []
  | _ + 1, _, _, [] => none
  | 0, _, _, b :: rest =>
    if b < 0x80 then (utf8DecodeAux 0 0 0 rest).map (b :: ·)
    else if b < 0xC2 then none
    else if b < 0xE0 then utf8DecodeAux 1 (b - 0xC0) 0x80 rest
    else if b < 0xF0 then utf8DecodeAux 2 (b - 0xE0) 0x800 rest
    else if b < 0xF5 then utf8DecodeAux 3 (b - 0xF0) 0x10000 rest
    else none
  | 1, acc, minv, b :: rest =>
    if isCont b then
      if minv ≤ acc * 64 + (b - 0x80) ∧
          ¬(0xD800 ≤ acc * 64 + (b - 0x80) ∧ acc * 64 + (b - 0x80) < 0xE000) ∧
          acc * 64 + (b - 0x80) < 0x110000 then
        (utf8DecodeAux 0 0 0 rest).map ((acc * 64 + (b - 0x80)) :: ·)
      else none
    else none
  | n + 2, acc, minv, b :: rest =>
    if isCont b then utf8DecodeAux (n + 1) (acc * 64 + (b - 0x80)) minv rest
    else none

/-- `bytes.decode('utf-8')`, strict: rejects bad leads, bad continuations,
truncated sequences, overlong forms, surrogates and code points above
`0x10FFFF`; `none` models `UnicodeDecodeError`. -/
def utf8Decode (l : Bytes) : Option Text := utf8DecodeAux 0 0 0 l

/-- A valid Python text for UTF-8 encoding: code points below `0x110000`,
no surrogates. -/
def ValidText (t : Text) : Prop :=
  ∀ c ∈ t, c < 0x110000 ∧ ¬(0xD800 ≤ c ∧ c < 0xE000)

instance : DecidablePred ValidText := fun t => by
  unfold ValidText; infer_instance

/-! ## Python `int(str)` -/

/-- Digit run with optional single underscores between digits
(`int('1_0') = 10`); accumulates the value. -/
def digitsVal (acc : Nat) : Text → Option Nat
  | [] => some acc
  | c :: rest =>
    if isDigitCp c then digitsVal (acc * 10 + (c - 48)) rest
    else if c == 95 then
      match rest with
      | c' :: _ => if isDigitCp c' then digitsVal acc rest else none
      | [] => none
    else none

/-- Python `int(s)` for a `str` argument: strips whitespace, optional sign,
then a digit run; anything else raises `ValueError` (`none`).
(Non-ASCII decimal digits, which Python also accepts, are not modelled.) -/
def pyInt (t : Text) : Option Int :=
  match pyStrip t with
  | [] => none
  | c :: rest =>
    if c == 43 then
      match rest with
      | c' :: _ => if isDigitCp c' then (digitsVal 0 rest).map Int.ofNat else none
      | [] => none
    else if c == 45 then
      match rest with
      | c' :: _ => if isDigitCp c' then (digitsVal 0 rest).map (fun n => -(n : Int)) else none
      | [] => none
    else if isDigitCp c then (digitsVal 0 (c :: rest)).map Int.ofNat
    else none

/-! ## JSON values (`json.loads` results)

Notes on fidelity:
* `num` keeps the raw literal as consumed from the source text; the
  listener never uses a parsed numeric value, only truthiness, which is
  computable from the literal (`numIsZero`).
* Equality on `Json` is syntactic.  Python's cross-type numeric equality
  (`1 == 1.0 == True`) is not modelled; no claim involves such values.
* A Python `dict` keeps the last occurrence of a duplicated key; `obj`
  keeps the members in source order and lookups take the last match. -/

inductive Json where
  | null : Json
  | bool : Bool → Json
  | num : Text → Json
  | str : Text → Json
  | arr : List Json → Json
  | obj : List (Text × Json) → Json
deriving Repr

mutual

def jsonDecEq : (a b : Json) → Decidable (a = b)
  | .null, .null => isTrue rfl
  | .bool a, .bool b =>
    match decEq a b with
    | isTrue h => isTrue (by rw [h])
    | isFalse h => isFalse (fun hh => h (Json.bool.inj hh))
  | .num a, .num b =>
    match decEq a b with
    | isTrue h => isTrue (by rw [h])
    | isFalse h => isFalse (fun hh => h (Json.num.inj hh))
  | .str a, .str b =>
    match decEq a b with
    | isTrue h => isTrue (by rw [h])
    | isFalse h => isFalse (fun hh => h (Json.str.inj hh))
  | .arr xs, .arr ys =>
    match jsonListDecEq xs ys with
    | isTrue h => isTrue (by rw [h])
    | isFalse h => isFalse (fun hh => h (Json.arr.inj hh))
  | .obj xs, .obj ys =>
    match jsonPairsDecEq xs ys with
    | isTrue h => isTrue (by rw [h])
    | isFalse h => isFalse (fun hh => h (Json.obj.inj hh))
  | .null, .bool _ => isFalse (fun h => Json.noConfusion h)
  | .null, .num _ => isFalse (fun h => Json.noConfusion h)
  | .null, .str _ => isFalse (fun h => Json.noConfusion h)
  | .null, .arr _ => isFalse (fun h => Json.noConfusion h)
  | .null, .obj _ => isFalse (fun h => Json.noConfusion h)
  | .bool _, .null => isFalse (fun h => Json.noConfusion h)
  | .bool _, .num _ => isFalse (fun h => Json.noConfusion h)
  | .bool _, .str _ => isFalse (fun h => Json.noConfusion h)
  | .bool _, .arr _ => isFalse (fun h => Json.noConfusion h)
  | .bool _, .obj _ => isFalse (fun h => Json.noConfusion h)
  | .num _, .null => isFalse (fun h => Json.noConfusion h)
  | .num _, .bool _ => isFalse (fun h => Json.noConfusion h)
  | .num _, .str _ => isFalse (fun h => Json.noConfusion h)
  | .num _, .arr _ => isFalse (fun h => Json.noConfusion h)
  | .num _, .obj _ => isFalse (fun h => Json.noConfusion h)
  | .str _, .null => isFalse (fun h => Json.noConfusion h)
  | .str _, .bool _ => isFalse (fun h => Json.noConfusion h)
  | .str _, .num _ => isFalse (fun h => Json.noConfusion h)
  | .str _, .arr _ => isFalse (fun h => Json.noConfusion h)
  | .str _, .obj _ => isFalse (fun h => Json.noConfusion h)
  | .arr _, .null => isFalse (fun h => Json.noConfusion h)
  | .arr _, .bool _ => isFalse (fun h => Json.noConfusion h)
  | .arr _, .num _ => isFalse (fun h => Json.noConfusion h)
  | .arr _, .str _ => isFalse (fun h => Json.noConfusion h)
  | .arr _, .obj _ => isFalse (fun h => Json.noConfusion h)
  | .obj _, .null => isFalse (fun h => Json.noConfusion h)
  | .obj _, .bool _ => isFalse (fun h => Json.noConfusion h)
  | .obj _, .num _ => isFalse (fun h => Json.noConfusion h)
  | .obj _, .str _ => isFalse (fun h => Json.noConfusion h)
  | .obj _, .arr _ => isFalse (fun h => Json.noConfusion h)

def jsonListDecEq : (a b : List Json) → Decidable (a = b)
  | [], [] => isTrue rfl
  | [], _ :: _ => isFalse (fun h => List.noConfusion h)
  | _ :: _, [] => isFalse (fun h => List.noConfusion h)
  | x :: xs, y :: ys =>
    match jsonDecEq x y, jsonListDecEq xs ys with
    | isTrue h1, isTrue h2 => isTrue (by rw [h1, h2])
    | isFalse h1, _ => isFalse (fun h => h1 (List.cons.inj h).1)
    | _, isFalse h2 => isFalse (fun h => h2 (List.cons.inj h).2)

def jsonPairsDecEq : (a b : List (Text × Json)) → Decidable (a = b)
  | [], [] => isTrue rfl
  | [], _ :: _ => isFalse (fun h => List.noConfusion h)
  | _ :: _, [] => isFalse (fun h => List.noConfusion h)
  | (k1, v1) :: xs, (k2, v2) :: ys =>
    match decEq k1 k2, jsonDecEq v1 v2, jsonPairsDecEq xs ys with
    | isTrue h1, isTrue h2, isTrue h3 => isTrue (by rw [h1, h2, h3])
    | isFalse h1, _, _ =>
      isFalse (fun h => h1 (congrArg Prod.fst (List.cons.inj h).1))
    | _, isFalse h2, _ =>
      isFalse (fun h => h2 (congrArg Prod.snd (List.cons.inj h).1))
    | _, _, isFalse h3 => isFalse (fun h => h3 (List.cons.inj h).2)

end

instance : DecidableEq Json := jsonDecEq

/-- Key containment for `'k' in state_json`.  On a non-`dict` value the
Python expression either raises `TypeError` (numbers), does substring or
element search (`str`, `list`) — in every such case the listener ends up
skipping the message with no cache mutation and no emission, which is what
`false` produces in `listenerStep` below. -/
def jsonHasKey (j : Json) (key : Text) : Bool :=
  match j with
  | .obj kvs => kvs.any (fun kv => decide (kv.1 = key))
  | _ => false

/-- `state_json.get(key, dflt)`; with duplicated keys the last one wins. -/
def jsonGetD (j : Json) (key : Text) (dflt : Json) : Json :=
  match j with
  | .obj kvs =>
    match kvs.reverse.find? (fun kv => decide (kv.1 = key)) with
    | some kv => kv.2
    | none => dflt
  | _ => dflt

/-- Whether the mantissa of a JSON number literal is zero (its value is then
zero regardless of the exponent). -/
def numIsZero (raw : Text) : Bool :=
  (raw.takeWhile (fun c => !(c == 101 || c == 69))).all (fun c => !(49 ≤ c && c ≤ 57))

/-- Python truthiness of a decoded JSON value. -/
def pyTruthy (j : Json) : Bool :=
  match j with
  | .null => false
  | .bool b => b
  | .num raw => !(numIsZero raw)
  | .str s => !s.isEmpty
  | .arr xs => !xs.isEmpty
  | .obj kvs => !kvs.isEmpty

/-- Whether a value may be put in a Python `set` (`list`/`dict` raise
`TypeError: unhashable type`). -/
def jsonHashable (j : Json) : Bool :=
  match j with
  | .arr _ => false
  | .obj _ => false
  | _ => true

/-! ## The JSON parser (`json.loads`)

`json.loads` skips leading whitespace, parses one value and then requires
only whitespace to follow.  Equivalently (since a value parse consumes the
same characters whether or not trailing whitespace follows): strip JSON
whitespace from both ends, parse one value and require it to consume the
whole remainder.  The parser is fuel-indexed for termination; every
fuel-consuming recursive call follows the consumption of at least one
input character, so fuel `length + 1` never runs out on any input. -/

/-- Skip insignificant JSON whitespace. -/
def skipWs : Text → Text := List.dropWhile jsonIsSpace

/-- Value of four hex digit characters, `none` if one is not hex. -/
def hex4Val (c1 c2 c3 c4 : Nat) : Option Nat :=
  if isHexDigitCp c1 && isHexDigitCp c2 && isHexDigitCp c3 && isHexDigitCp c4 then
    some (((hexVal c1 * 16 + hexVal c2) * 16 + hexVal c3) * 16 + hexVal c4)
  else none

/-- Body of a JSON string after the opening quote; returns the decoded
code points and the remainder after the closing quote.  As in CPython's
`json` scanner: a high `\u` surrogate immediately followed by a low `\u`
surrogate is combined; a lone surrogate is kept; a `\u` escape with bad
hex digits is an error. -/
def parseStringBodyAux : Nat → Text → Option (Text × Text)
  | 0, _ => none
  | _ + 1, [] => none
  | fuel + 1, c :: rest =>
    if c == 34 then some ([], rest)
    else if c == 92 then
      match rest with
      | [] => none
      | e :: rest' =>
        if e == 117 then
          match rest' with
          | c1 :: c2 :: c3 :: c4 :: rest'' =>
            match hex4Val c1 c2 c3 c4 with
            | none => none
            | some u =>
              if 0xD800 ≤ u ∧ u ≤ 0xDBFF then
                match rest'' with
                | 92 :: 117 :: d1 :: d2 :: d3 :: d4 :: rest4 =>
                  match hex4Val d1 d2 d3 d4 with
                  | none => none
                  | some u2 =>
                    if 0xDC00 ≤ u2 ∧ u2 ≤ 0xDFFF then
                      (parseStringBodyAux fuel rest4).map
                        (fun p => ((0x10000 + (u - 0xD800) * 0x400 + (u2 - 0xDC00)) :: p.1, p.2))
                    else
                      (parseStringBodyAux fuel (92 :: 117 :: d1 :: d2 :: d3 :: d4 :: rest4)).map
                        (fun p => (u :: p.1, p.2))
                | 92 :: 117 :: _ => none
                | 92 :: d :: ds => (parseStringBodyAux fuel (92 :: d :: ds)).map (fun p => (u :: p.1, p.2))
                | 92 :: [] => none
                | d :: ds => (parseStringBodyAux fuel (d :: ds)).map (fun p => (u :: p.1, p.2))
                | [] => none
              else (parseStringBodyAux fuel rest'').map (fun p => (u :: p.1, p.2))
          | _ => none
        else
          match
            (if e == 34 then some 34 else if e == 92 then some 92
             else if e == 47 then some 47 else if e == 98 then some 8
             else if e == 102 then some 12 else if e == 110 then some 10
             else if e == 114 then some 13 else if e == 116 then some 9
             else none : Option Nat) with
          | some d => (parseStringBodyAux fuel rest').map (fun p => (d :: p.1, p.2))
          | none => none
    else if c < 0x20 then none
    else (parseStringBodyAux fuel rest).map (fun p => (c :: p.1, p.2))

/-- Body of a JSON string after the opening quote (fuel-indexed: every step
consumes at least one input character, so `length + 1` fuel suffices). -/
def parseStringBody (t : Text) : Option (Text × Text) :=
  parseStringBodyAux (t.length + 1) t

/-- Integer part of a JSON number: `'0'` alone or a nonzero digit followed
by a greedy digit run. -/
def parseIntPart : Text → Option (Text × Text)
  | [] => none
  | c :: r =>
    if c == 48 then some ([48], r)
    else if isDigitCp c then some (c :: r.takeWhile isDigitCp, r.dropWhile isDigitCp)
    else none

/-- Optional minus sign and integer part. -/
def parseSignInt : Text → Option (Text × Text)
  | 45 :: r => (parseIntPart r).map (fun p => (45 :: p.1, p.2))
  | t => parseIntPart t

/-- Optional fraction `.digits`; consumes nothing when absent (a `.` not
followed by a digit stays in the remainder, as CPython's number regex
behaves). -/
def parseFracPart (rest1 : Text) : Text × Text :=
  match rest1 with
  | 46 :: r =>
    match r.takeWhile isDigitCp with
    | [] => ([], rest1)
    | ds => (46 :: ds, r.dropWhile isDigitCp)
  | _ => ([], rest1)

/-- Optional exponent `[eE][+-]?digits`; consumes nothing when absent or
malformed. -/
def parseExpPart (rest2 : Text) : Text × Text :=
  match rest2 with
  | e :: r =>
    if e == 101 || e == 69 then
      let p : Text × Text :=
        match r with
        | s :: r' => if s == 43 || s == 45 then ([s], r') else ([], r)
        | [] => ([], r)
      match p.2.takeWhile isDigitCp with
      | [] => ([], rest2)
      | ds => (e :: (p.1 ++ ds), p.2.dropWhile isDigitCp)
    else ([], rest2)
  | [] => ([], rest2)

/-- JSON number literal: `-? ('0' | [1-9][0-9]*) ('.'[0-9]+)? ([eE][+-]?[0-9]+)?`;
returns the raw literal and the remainder. -/
def parseNumLit (t : Text) : Option (Text × Text) :=
  match parseSignInt t with
  | none => none
  | some (ip, rest1) =>
    let fp := parseFracPart rest1
    let ep := parseExpPart fp.2
    some (ip ++ fp.1 ++ ep.1, ep.2)

mutual

/-- Parse one JSON value after skipping leading whitespace. -/
def parseValue : Nat → Text → Option (Json × Text)
  | 0, _ => none
  | Nat.succ f, t =>
    match skipWs t with
    | [] => none
    | c :: rest =>
      if c == 110 then
        match rest with
        | 117 :: 108 :: 108 :: r => some (.null, r)
        | _ => none
      else if c == 116 then
        match rest with
        | 114 :: 117 :: 101 :: r => some (.bool true, r)
        | _ => none
      else if c == 102 then
        match rest with
        | 97 :: 108 :: 115 :: 101 :: r => some (.bool false, r)
        | _ => none
      else if c == 34 then
        (parseStringBody rest).map (fun p => (.str p.1, p.2))
      else if c == 45 || isDigitCp c then
        (parseNumLit (c :: rest)).map (fun p => (.num p.1, p.2))
      else if c == 91 then
        match skipWs rest with
        | 93 :: r => some (.arr [], r)
        | r1 => (parseElems f r1).map (fun p => (.arr p.1, p.2))
      else if c == 123 then
        match skipWs rest with
        | 125 :: r => some (.obj [], r)
        | r1 => (parseMembers f r1).map (fun p => (.obj p.1, p.2))
      else none

/-- Elements of a non-empty JSON array (after `[` and leading whitespace). -/
def parseElems : Nat → Text → Option (List Json × Text)
  | 0, _ => none
  | Nat.succ f, t =>
    match parseValue f t with
    | none => none
    | some (v, r) =>
      match skipWs r with
      | 44 :: r2 => (parseElems f r2).map (fun p => (v :: p.1, p.2))
      | 93 :: r2 => some ([v], r2)
      | _ => none

/-- Members of a non-empty JSON object (after `{` and leading whitespace). -/
def parseMembers : Nat → Text → Option (List (Text × Json) × Text)
  | 0, _ => none
  | Nat.succ f, t =>
    match skipWs t with
    | 34 :: r =>
      match parseStringBody r with
      | none => none
      | some (k, r1) =>
        match skipWs r1 with
        | 58 :: r2 =>
          match parseValue f r2 with
          | none => none
          | some (v, r3) =>
            match skipWs r3 with
            | 44 :: r4 => (parseMembers f r4).map (fun p => ((k, v) :: p.1, p.2))
            | 125 :: r4 => some ([(k, v)], r4)
            | _ => none
        | _ => none
    | _ => none

end

/-- `json.loads`; `none` models `json.JSONDecodeError`. -/
def jsonParse (t : Text) : Option Json :=
  let s := jsonTrim t
  match parseValue (s.length + 1) s with
  | some (v, []) => some v
  | _ => none

/-! ## BitfieldCodec: `FanStateListener.decode_state_value` -/

def strDaylight : Text := strCps "Daylight"
def strModeCool : Text := strCps "Cool"
def strModeWarm : Text := strCps "Warm"
def strModeOff : Text := strCps "Off"

/-- The decoded state dictionary.  `device_id` / `raw_state` are attached by
the listener loop after a successful decode. -/
structure DeviceState where
  power : Bool
  led : Bool
  sleep : Bool
  speed : Int
  timer : Int
  timer_elapsed_mins : Int
  brightness : Int
  cool : Bool
  warm : Bool
  color_mode : Text
  device_id : Json
  raw_state : Text
deriving DecidableEq, Repr

/-- The bit extraction of `decode_state_value` on the parsed integer.
Python `/` is float division here, but each mask is a multiple of its
divisor and every intermediate fits a double exactly, so `round` over `ℚ`
is an exact model. -/
def decode_bits (v : Int) : DeviceState :=
  let cool := decide (0 < Int.land 0x08 v)
  let warm := decide (0 < Int.land 0x8000 v)
  { power := decide (0 < Int.land 0x10 v)
    led := decide (0 < Int.land 0x20 v)
    sleep := decide (0 < Int.land 0x80 v)
    speed := Int.land 0x07 v
    timer := round (((Int.land 0x0F0000 v : Int) : ℚ) / 65536)
    timer_elapsed_mins := round (((Int.land 0xFF000000 v * 4 : Int) : ℚ) / 16777216)
    brightness := round (((Int.land 0x7F00 v : Int) : ℚ) / 256)
    cool := cool
    warm := warm
    color_mode :=
      if cool && warm then strDaylight
      else if cool then strModeCool
      else if warm then strModeWarm
      else strModeOff
    device_id := Json.str []
    raw_state := [] }

/-- `decode_state_value`: `int(value)` on the first sub-field, then the bit
extraction; any exception (a non-integer string) returns `None`. -/
def decode_state_value (s : Text) : Option DeviceState :=
  match pyInt s with
  | some v => some (decode_bits v)
  | none => none

/-- Python `state_string.split(',')` (note `''.split(',') == ['']`). -/
def splitComma : Text → List Text
  | [] => [[]]
  | c :: rest =>
    if c == 44 then [] :: splitComma rest
    else
      match splitComma rest with
      | s :: ss => (c :: s) :: ss
      | [] => [[c]]

/-! ## MessageFramer: datagram → parsed JSON envelope -/

def key_state_string : Text := strCps "state_string"
def key_message_id : Text := strCps "message_id"
def key_device_id : Text := strCps "device_id"

/-- The hex re-interpretation sub-step: `bytes.fromhex(raw).decode('utf-8')`;
`none` models the `ValueError` (including `UnicodeDecodeError`) that the
listener catches. -/
def hexReinterpret (r : Text) : Option Text := (bytesFromHex r).bind utf8Decode

/-- `raw_data`/`ascii_data` computation of the listener: strip, then the
all-hex-digits heuristic with fallback to the stripped text on any
`ValueError`. -/
def asciiData (txt : Text) : Text :=
  let raw_data := pyStrip txt
  if raw_data.all isHexDigitCp then
    match hexReinterpret raw_data with
    | some a => a
    | none => raw_data
  else raw_data

/-- Datagram payload → parsed JSON envelope: UTF-8 decode (failure is
caught and skips the message), hex-vs-plain heuristic, `json.loads`. -/
def parseDatagram (data : Bytes) : Option Json :=
  (utf8Decode data).bind (fun txt => jsonParse (asciiData txt))

/-! ## BroadcastListener: one received datagram

The dedup set `self.processed_messages` is kept as its insertion-ordered,
duplicate-free element list.  `order` is the unspecified iteration order
that `list(self.processed_messages)` produces; any permutation of the
elements is a possible behavior of the Python `set`. -/

/-- `set(list(s)[-50:])`: the last 50 elements of the iteration order. -/
def trimCache (order : List Json → List Json) (cache : List Json) : List Json :=
  let l := order cache
  l.drop (l.length - 50)

/-- An iteration-order oracle must enumerate exactly the set's elements. -/
def IsIterOrder (order : List Json → List Json) : Prop :=
  ∀ l, (order l).Perm l

/-- Processing of one received datagram by `FanStateListener.run`, between
`recvfrom` and `emit`.  Returns the new dedup set and the emitted state, if
any.  Every Python exception path (bad UTF-8, bad JSON, unhashable
`message_id`, non-string `state_string`) is modelled by its net effect:
skip the message, keeping whatever state mutations already happened. -/
def listenerStep (order : List Json → List Json) (processed : List Json)
    (data : Bytes) : List Json × Option DeviceState :=
  match parseDatagram data with
  | none => (processed, none)
  | some j =>
    if jsonHasKey j key_state_string then
      let mid := jsonGetD j key_message_id (Json.str [])
      if pyTruthy mid ∧ ¬ jsonHashable mid then (processed, none)
      else if pyTruthy mid ∧ mid ∈ processed then (processed, none)
      else
        let c1 := if pyTruthy mid then processed ++ [mid] else processed
        let c2 := if 100 < c1.length then trimCache order c1 else c1
        match jsonGetD j key_state_string (Json.str []) with
        | .str s =>
          match decode_state_value (splitComma s).headI with
          | some dec =>
            (c2, some { dec with device_id := jsonGetD j key_device_id (Json.str []),
                                 raw_state := s })
          | none => (c2, none)
        | _ => (c2, none)
    else (processed, none)

/-- Processing of a sequence of datagrams from a given dedup-set state;
collects the emitted states in receipt order. -/
def listenerRun (order : List Json → List Json) (processed : List Json) :
    List Bytes → List Json × List DeviceState
  | [] => (processed, [])
  | d :: ds =>
    let step := listenerStep order processed d
    let rest := listenerRun order step.1 ds
    (rest.1, step.2.toList ++ rest.2)

/-! ## DeviceRegistry: `FanControlApp.on_state_received` -/

/-- The IP → device-id slots (`self.device_ids`); Python dicts preserve
insertion order, so the scan order is fixed. -/
abbrev Registry := List (Text × Option Json)

def initial_device_ids : Registry :=
  [(strCps "192.168.29.14", none), (strCps "192.168.29.15", none)]

/-- The slot scan: assign to the first unassigned or already-matching slot,
then `break`. -/
def assignFirst (did : Json) : Registry → Registry
  | [] => []
  | (ip, slot) :: rest =>
    if slot = none ∨ slot = some did then (ip, some did) :: rest
    else (ip, slot) :: assignFirst did rest

/-- Registry update of `on_state_received`: no-op when the received
`device_id` is falsy, otherwise the first-eligible-slot scan. -/
def observe_device (reg : Registry) (did : Json) : Registry :=
  if pyTruthy did then assignFirst did reg else reg

/-! ## CommandEncoder: `send_command` / `control.py` -/

/-- Decimal digits, fuel-indexed for structural recursion (the fuel bounds
the number of digits; `n + 1` always suffices). -/
def natReprAux : Nat → Nat → Text
  | 0, _ => []
  | Nat.succ f, n => if n < 10 then [48 + n] else natReprAux f (n / 10) ++ [48 + n % 10]

/-- Decimal digits of a natural number (`repr(n)` for `n ≥ 0`). -/
def natRepr (n : Nat) : Text := natReprAux (n + 1) n

/-- `repr(i)` for a Python integer, as `json.dumps` prints it. -/
def intRepr (i : Int) : Text :=
  if i < 0 then 45 :: natRepr i.natAbs else natRepr i.toNat

/-- A command value: the recognized keys map to booleans or integers. -/
inductive CmdVal where
  | bval : Bool → CmdVal
  | ival : Int → CmdVal
deriving DecidableEq, Repr

/-- A command mapping, in dict insertion order. -/
abbrev Command := List (Text × CmdVal)

/-- The JSON value a command value serializes to. -/
def cmdValJson : CmdVal → Json
  | .bval b => .bool b
  | .ival i => .num (intRepr i)

/-- `json.dumps` of a command value. -/
def dumpVal : CmdVal → Text
  | .bval true => strCps "true"
  | .bval false => strCps "false"
  | .ival i => intRepr i

def joinSep (sep : Text) : List Text → Text
  | [] => []
  | [x] => x
  | x :: y :: xs => x ++ sep ++ joinSep sep (y :: xs)

/-- One `"key": value` member with `json.dumps`' default `': '` separator. -/
def dumpMember (p : Text × CmdVal) : Text :=
  [34] ++ p.1 ++ [34, 58, 32] ++ dumpVal p.2

/-- `json.dumps(command)` with the default `', '` item separator.  (The six
recognized keys need no string escaping.) -/
def json_dumps_command (cmd : Command) : Text :=
  [123] ++ joinSep [44, 32] (cmd.map dumpMember) ++ [125]

/-- `send_command` (GUI) and the `control.py` send path: serialize the
command and send it as a single UDP datagram; the list is the sequence of
datagrams emitted by one call. -/
def send_command (cmd : Command) : List Bytes :=
  [utf8Encode (json_dumps_command cmd)]

/-- The recognized command keys (§3 of the spec / both senders). -/
def commandKeys : List Text :=
  [strCps "power", strCps "speed", strCps "speedDelta",
   strCps "led", strCps "timer", strCps "sleep"]

/-! ## Bit-arithmetic helper lemmas -/

lemma land_two_pow_sub_one (v k : Nat) : v &&& (2 ^ k - 1) = v % 2 ^ k := by
  apply Nat.eq_of_testBit_eq
  intro i
  simp only [Nat.testBit_land, Nat.testBit_two_pow_sub_one, Nat.testBit_mod_two_pow]
  by_cases h : i < k <;> simp [h]

lemma land_mask_shift (v j k : Nat) :
    v &&& ((2 ^ j - 1) <<< k) = ((v >>> k) &&& (2 ^ j - 1)) <<< k := by
  apply Nat.eq_of_testBit_eq
  intro i
  simp only [Nat.testBit_land, Nat.testBit_shiftLeft, Nat.testBit_shiftRight,
    Nat.testBit_two_pow_sub_one, ge_iff_le]
  by_cases h : k ≤ i
  · have hik : k + (i - k) = i := by omega
    simp only [h, decide_eq_true_eq, hik]
    cases v.testBit i <;> simp
  · simp [h]

lemma int_land_natCast (a b : Nat) : Int.land (a : Int) (b : Int) = ((a &&& b : Nat) : Int) :=
  rfl

lemma round_natCast_mul_div (a k : Nat) :
    round (((a * 2 ^ k : Nat) : ℚ) / ((2 : ℚ) ^ k)) = (a : Int) := by
  push_cast
  rw [mul_div_assoc, div_self (by positivity), mul_one, round_natCast]

/-! ## C1: the bitfield decode matches the specified bit layout -/

/-- `color_mode` truth table as the spec states it (§3/§8). -/
def spec_color_mode (cool warm : Bool) : Text :=
  match cool, warm with
  | false, false => strModeOff
  | true, false => strModeCool
  | false, true => strModeWarm
  | true, true => strDaylight

/-- The decoded state as the spec's §4.1 bit layout describes it, for an
unsigned 32-bit integer `v`. -/
def spec_decode (v : Nat) : DeviceState :=
  { power := decide (v &&& 0x10 ≠ 0)
    led := decide (v &&& 0x20 ≠ 0)
    sleep := decide (v &&& 0x80 ≠ 0)
    speed := ((v &&& 0x07 : Nat) : Int)
    timer := round (((v &&& 0x0F0000 : Nat) : ℚ) / 65536)
    timer_elapsed_mins := round ((((v &&& 0xFF000000) * 4 : Nat) : ℚ) / 16777216)
    brightness := round (((v &&& 0x7F00 : Nat) : ℚ) / 256)
    cool := decide (v &&& 0x08 ≠ 0)
    warm := decide (v &&& 0x8000 ≠ 0)
    color_mode := spec_color_mode (decide (v &&& 0x08 ≠ 0)) (decide (v &&& 0x8000 ≠ 0))
    device_id := Json.str []
    raw_state := [] }

lemma int_land_lit_natCast (m v : Nat) :
    Int.land ((m : Nat) : Int) ((v : Nat) : Int) = ((m &&& v : Nat) : Int) := rfl

lemma decide_pos_land (m v : Nat) :
    decide (0 < Int.land (m : Int) (v : Int)) = decide (v &&& m ≠ 0) := by
  rw [int_land_natCast, Nat.land_comm]
  apply decide_eq_decide.mpr
  exact_mod_cast Nat.pos_iff_ne_zero

/-- C1: for every unsigned 32-bit integer presented as a digit string (any
string that Python's `int` parses to `v`), `decode_state_value` is a
function of `v` alone and extracts exactly the specified bit fields. -/
theorem decode_state_value_matches_bit_layout (s : Text) (v : Nat) (hv : v < 2 ^ 32)
    (hs : pyInt s = some (v : Int)) :
    decode_state_value s = some (spec_decode v) := by
  unfold decode_state_value
  rw [hs]
  show some (decode_bits ((v : Nat) : Int)) = some (spec_decode v)
  congr 1
  unfold decode_bits spec_decode
  have h8 : Int.land 0x08 ((v : Nat) : Int) = ((0x08 &&& v : Nat) : Int) := rfl
  have h10 : Int.land 0x10 ((v : Nat) : Int) = ((0x10 &&& v : Nat) : Int) := rfl
  have h20 : Int.land 0x20 ((v : Nat) : Int) = ((0x20 &&& v : Nat) : Int) := rfl
  have h80 : Int.land 0x80 ((v : Nat) : Int) = ((0x80 &&& v : Nat) : Int) := rfl
  have h7 : Int.land 0x07 ((v : Nat) : Int) = ((0x07 &&& v : Nat) : Int) := rfl
  have h8000 : Int.land 0x8000 ((v : Nat) : Int) = ((0x8000 &&& v : Nat) : Int) := rfl
  have hF0000 : Int.land 0x0F0000 ((v : Nat) : Int) = ((0x0F0000 &&& v : Nat) : Int) := rfl
  have hFF : Int.land 0xFF000000 ((v : Nat) : Int) = ((0xFF000000 &&& v : Nat) : Int) := rfl
  have h7F00 : Int.land 0x7F00 ((v : Nat) : Int) = ((0x7F00 &&& v : Nat) : Int) := rfl
  have hpos : ∀ m : Nat, decide (0 < ((m &&& v : Nat) : Int)) = decide (v &&& m ≠ 0) := by
    intro m
    rw [Nat.land_comm]
    apply decide_eq_decide.mpr
    exact_mod_cast Nat.pos_iff_ne_zero
  simp only [h8, h10, h20, h80, h7, h8000, hF0000, hFF, h7F00, hpos]
  simp only [DeviceState.mk.injEq, Nat.land_comm _ v]
  refine ⟨?_, ?_, ?_, ?_, ?_, ?_, ?_, ?_, ?_, ?_, ?_, ?_⟩
  all_goals try trivial
  all_goals try (push_cast; ring_nf)
  all_goals
    unfold spec_color_mode
    by_cases hc : v &&& 0x08 ≠ 0 <;> by_cases hw : v &&& 0x8000 ≠ 0 <;>
      simp [hc, hw]

/-- Witness for C1 at the concrete digit string `"176"`. -/
theorem decode_state_value_matches_bit_layout_w :
    (176 : Nat) < 2 ^ 32 ∧ pyInt (strCps "176") = some 176 ∧
    decode_state_value (strCps "176") = some (spec_decode 176) :=
  ⟨by norm_num, by decide,
   decode_state_value_matches_bit_layout (strCps "176") 176 (by norm_num) (by decide)⟩

/-! ## C7: the `color_mode` truth table -/

lemma decode_bits_color_mode (v : Int) :
    (decode_bits v).color_mode = spec_color_mode (decode_bits v).cool (decode_bits v).warm := by
  unfold decode_bits spec_color_mode
  by_cases hc : 0 < Int.land 0x08 v <;> by_cases hw : 0 < Int.land 0x8000 v <;>
    simp [hc, hw]

/-- C7: every successfully decoded state has `color_mode` given by the
truth table Off / Cool / Warm / Daylight on its `cool` / `warm` bits. -/
theorem decode_color_mode_truth_table (s : Text) (d : DeviceState)
    (h : decode_state_value s = some d) :
    d.color_mode = spec_color_mode d.cool d.warm := by
  unfold decode_state_value at h
  cases hp : pyInt s with
  | none => rw [hp] at h; exact absurd h (by simp)
  | some v =>
    rw [hp] at h
    have hd : d = decode_bits v := by
      have : some (decode_bits v) = some d := h
      exact (Option.some.inj this).symm
    subst hd
    exact decode_bits_color_mode v

/-- Witness for C7 at the concrete digit string `"176"`. -/
theorem decode_color_mode_truth_table_w :
    decode_state_value (strCps "176") = some (decode_bits 176) ∧
    (decode_bits 176).color_mode =
      spec_color_mode (decode_bits 176).cool (decode_bits 176).warm :=
  ⟨rfl, decode_color_mode_truth_table (strCps "176") (decode_bits 176) rfl⟩

/-! ## C8: the three division-based fields are exact -/

lemma land_mask_factor (v j k : Nat) :
    (2 ^ j - 1) <<< k &&& v = ((v >>> k) &&& (2 ^ j - 1)) * 2 ^ k := by
  rw [Nat.land_comm, land_mask_shift, Nat.shiftLeft_eq]

/-- C8: for every unsigned 32-bit `v`, `round` has no fractional effect on
`timer`, `timer_elapsed_mins` and `brightness`: they equal the plain
shifted-and-masked bit fields. -/
theorem division_fields_exact (v : Nat) (hv : v < 2 ^ 32) :
    (decode_bits ((v : Nat) : Int)).timer = (((v >>> 16) &&& 0xF : Nat) : Int) ∧
    (decode_bits ((v : Nat) : Int)).timer_elapsed_mins
      = ((((v >>> 24) &&& 0xFF) * 4 : Nat) : Int) ∧
    (decode_bits ((v : Nat) : Int)).brightness = (((v >>> 8) &&& 0x7F : Nat) : Int) := by
  refine ⟨?_, ?_, ?_⟩
  · show round (((Int.land 0x0F0000 ((v : Nat) : Int) : Int) : ℚ) / 65536) = _
    have harg : ((Int.land 0x0F0000 ((v : Nat) : Int) : Int) : ℚ) / (65536 : ℚ)
        = (((v >>> 16) &&& 0xF : Nat) : ℚ) := by
      rw [show Int.land 0x0F0000 ((v : Nat) : Int) = ((0x0F0000 &&& v : Nat) : Int) from rfl,
        show (0x0F0000 : Nat) = (2 ^ 4 - 1) <<< 16 from rfl, land_mask_factor]
      push_cast
      ring_nf
      try norm_num
    rw [harg, round_natCast]
  · show round (((Int.land 0xFF000000 ((v : Nat) : Int) * 4 : Int) : ℚ) / 16777216) = _
    have harg : ((Int.land 0xFF000000 ((v : Nat) : Int) * 4 : Int) : ℚ) / (16777216 : ℚ)
        = ((((v >>> 24) &&& 0xFF) * 4 : Nat) : ℚ) := by
      rw [show Int.land 0xFF000000 ((v : Nat) : Int) = ((0xFF000000 &&& v : Nat) : Int) from rfl,
        show (0xFF000000 : Nat) = (2 ^ 8 - 1) <<< 24 from rfl, land_mask_factor]
      push_cast
      ring_nf
      try norm_num
    rw [harg, round_natCast]
  · show round (((Int.land 0x7F00 ((v : Nat) : Int) : Int) : ℚ) / 256) = _
    have harg : ((Int.land 0x7F00 ((v : Nat) : Int) : Int) : ℚ) / (256 : ℚ)
        = (((v >>> 8) &&& 0x7F : Nat) : ℚ) := by
      rw [show Int.land 0x7F00 ((v : Nat) : Int) = ((0x7F00 &&& v : Nat) : Int) from rfl,
        show (0x7F00 : Nat) = (2 ^ 7 - 1) <<< 8 from rfl, land_mask_factor]
      push_cast
      ring_nf
      try norm_num
    rw [harg, round_natCast]

/-- Witness for C8 at the concrete value `0x12345678`. -/
theorem division_fields_exact_w :
    (0x12345678 : Nat) < 2 ^ 32 ∧
    (decode_bits ((0x12345678 : Nat) : Int)).timer
      = ((((0x12345678 : Nat) >>> 16) &&& 0xF : Nat) : Int) :=
  ⟨by norm_num, (division_fields_exact 0x12345678 (by norm_num)).1⟩

/-! ## Listener-step characterization lemmas -/

/-- The `message_id` field of a parsed envelope (default `''`). -/
def midOf (j : Json) : Json := jsonGetD j key_message_id (Json.str [])

/-- What the tail of the loop body emits for an envelope, independent of
the dedup cache. -/
def stepEmit (j : Json) : Option DeviceState :=
  match jsonGetD j key_state_string (Json.str []) with
  | Json.str s =>
    match decode_state_value (splitComma s).headI with
    | some dec =>
      some { dec with device_id := jsonGetD j key_device_id (Json.str []),
                      raw_state := s }
    | none => none
  | _ => none

/-- The cache after the insert-and-trim block for a non-duplicate id. -/
def stepCache (order : List Json → List Json) (processed : List Json)
    (mid : Json) : List Json :=
  let c1 := if pyTruthy mid then processed ++ [mid] else processed
  if 100 < c1.length then trimCache order c1 else c1

lemma listenerStep_parse_none (order : List Json → List Json) (processed : List Json)
    (data : Bytes) (h : parseDatagram data = none) :
    listenerStep order processed data = (processed, none) := by
  unfold listenerStep
  rw [h]

lemma listenerStep_no_key (order : List Json → List Json) (processed : List Json)
    (data : Bytes) (j : Json) (h : parseDatagram data = some j)
    (hk : jsonHasKey j key_state_string = false) :
    listenerStep order processed data = (processed, none) := by
  unfold listenerStep
  rw [h]
  simp [hk]

lemma listenerStep_unhashable (order : List Json → List Json) (processed : List Json)
    (data : Bytes) (j : Json) (h : parseDatagram data = some j)
    (hk : jsonHasKey j key_state_string = true)
    (ht : pyTruthy (midOf j) = true) (hh : jsonHashable (midOf j) = false) :
    listenerStep order processed data = (processed, none) := by
  unfold listenerStep
  rw [h]
  unfold midOf at ht hh
  simp [hk, ht, hh]

lemma listenerStep_dup (order : List Json → List Json) (processed : List Json)
    (data : Bytes) (j : Json) (h : parseDatagram data = some j)
    (hk : jsonHasKey j key_state_string = true)
    (ht : pyTruthy (midOf j) = true) (hh : jsonHashable (midOf j) = true)
    (hm : midOf j ∈ processed) :
    listenerStep order processed data = (processed, none) := by
  unfold listenerStep
  rw [h]
  unfold midOf at ht hh hm
  simp [hk, ht, hh, hm]

lemma listenerStep_fresh (order : List Json → List Json) (processed : List Json)
    (data : Bytes) (j : Json) (h : parseDatagram data = some j)
    (hk : jsonHasKey j key_state_string = true)
    (hnd : ¬(pyTruthy (midOf j) = true ∧ midOf j ∈ processed))
    (hh : pyTruthy (midOf j) = true → jsonHashable (midOf j) = true) :
    listenerStep order processed data = (stepCache order processed (midOf j), stepEmit j) := by
  unfold listenerStep stepCache stepEmit midOf
  rw [h]
  unfold midOf at hnd hh
  by_cases ht : pyTruthy (jsonGetD j key_message_id (Json.str [])) = true
  · have hh' := hh ht
    have hm : jsonGetD j key_message_id (Json.str []) ∉ processed := fun hmem => hnd ⟨ht, hmem⟩
    simp only [hk, if_true, ht, hh', hm]
    simp only [Bool.true_eq_false, and_false, false_and, not_false_eq_true, and_true,
      if_false, if_true, not_true_eq_false, reduceCtorEq]
    cases jsonGetD j key_state_string (Json.str []) <;>
      first
        | rfl
        | (rename_i s
           cases hdec : decode_state_value (splitComma s).headI <;> simp [hdec])
  · simp only [hk, if_true, ht]
    simp only [Bool.false_eq_true, false_and, not_false_eq_true, if_false, and_false]
    cases jsonGetD j key_state_string (Json.str []) <;>
      first
        | rfl
        | (rename_i s
           cases hdec : decode_state_value (splitComma s).headI <;> simp [hdec])

/-! ## C6: transient noise is skipped, the loop continues -/

/-- C6: a datagram that is transient noise — not valid UTF-8, not valid
JSON, missing `state_string`, first sub-field not an integer, or a
duplicate `message_id` — produces no emission.  `listenerStep` is a total
function, so processing always continues with the next datagram: no
exception escapes the loop. -/
theorem transient_noise_skipped (order : List Json → List Json)
    (processed : List Json) (data : Bytes)
    (h : utf8Decode data = none ∨
         (∀ t, utf8Decode data = some t → jsonParse (asciiData t) = none) ∨
         (∀ j, parseDatagram data = some j → jsonHasKey j key_state_string = false) ∨
         (∀ j s, parseDatagram data = some j →
            jsonGetD j key_state_string (Json.str []) = Json.str s →
            decode_state_value (splitComma s).headI = none) ∨
         (∀ j, parseDatagram data = some j →
            pyTruthy (midOf j) = true ∧ midOf j ∈ processed)) :
    (listenerStep order processed data).2 = none := by
  cases hp : parseDatagram data with
  | none => rw [listenerStep_parse_none order processed data hp]
  | some j =>
    rcases h with h | h | h | h | h
    · exact absurd hp (by unfold parseDatagram; rw [h]; simp)
    · obtain ⟨t, ht⟩ : ∃ t, utf8Decode data = some t := by
        unfold parseDatagram at hp
        cases hu : utf8Decode data with
        | none => rw [hu] at hp; exact absurd hp (by simp)
        | some t => exact ⟨t, rfl⟩
      have : parseDatagram data = none := by
        unfold parseDatagram; rw [ht]; simp [h t ht]
      exact absurd (hp.symm.trans this) (by simp)
    · rw [listenerStep_no_key order processed data j hp (h j hp)]
    · by_cases hk : jsonHasKey j key_state_string = true
      · by_cases hht : pyTruthy (midOf j) = true
        · by_cases hhash : jsonHashable (midOf j) = true
          · by_cases hmem : midOf j ∈ processed
            · rw [listenerStep_dup order processed data j hp hk hht hhash hmem]
            · rw [listenerStep_fresh order processed data j hp hk
                (fun hc => hmem hc.2) (fun _ => hhash)]
              unfold stepEmit
              cases hss : jsonGetD j key_state_string (Json.str []) <;> try rfl
              rename_i s
              simp [h j s hp hss]
          · rw [listenerStep_unhashable order processed data j hp hk hht
              (by simpa using hhash)]
        · rw [listenerStep_fresh order processed data j hp hk
            (fun hc => hht hc.1) (fun hc => absurd hc hht)]
          unfold stepEmit
          cases hss : jsonGetD j key_state_string (Json.str []) <;> try rfl
          rename_i s
          simp [h j s hp hss]
      · rw [listenerStep_no_key order processed data j hp (by simpa using hk)]
    · obtain ⟨hht, hmem⟩ := h j hp
      by_cases hhash : jsonHashable (midOf j) = true
      · by_cases hk : jsonHasKey j key_state_string = true
        · rw [listenerStep_dup order processed data j hp hk hht hhash hmem]
        · rw [listenerStep_no_key order processed data j hp (by simpa using hk)]
      · by_cases hk : jsonHasKey j key_state_string = true
        · rw [listenerStep_unhashable order processed data j hp hk hht
            (by simpa using hhash)]
        · rw [listenerStep_no_key order processed data j hp (by simpa using hk)]

/-- Witness for C6: an invalid UTF-8 payload (a lone continuation byte). -/
theorem transient_noise_skipped_w :
    utf8Decode [0xFF] = none ∧ (listenerStep id [] [0xFF]).2 = none :=
  ⟨rfl, transient_noise_skipped id [] [0xFF] (Or.inl rfl)⟩

/-! ## C3: deduplication by `message_id` -/

lemma stepCache_small (order : List Json → List Json) (processed : List Json)
    (mid : Json) (ht : pyTruthy mid = true) (hlen : processed.length < 100) :
    stepCache order processed mid = processed ++ [mid] := by
  simp only [stepCache]
  rw [if_pos ht, if_neg (show ¬ 100 < (processed ++ [mid]).length by simp; omega)]

lemma stepCache_falsy (order : List Json → List Json) (processed : List Json)
    (mid : Json) (ht : pyTruthy mid = false) (hlen : processed.length ≤ 100) :
    stepCache order processed mid = processed := by
  simp only [stepCache]
  rw [if_neg (show ¬ pyTruthy mid = true by simp [ht]),
    if_neg (show ¬ 100 < processed.length by omega)]

/-- C3: from listener start (empty cache), two datagrams framing to the
same truthy `message_id`, both of whose states decode successfully,
produce exactly one emission (for the first); the duplicate leaves the
cache unchanged.  And a datagram whose `message_id` is empty (or absent,
which defaults to empty) is never treated as a duplicate and is not
inserted, even from an arbitrary prior cache — e.g. one that already
processed the identical datagram. -/
theorem dedup_same_message_id :
    (∀ (order : List Json → List Json) (d1 d2 : Bytes) (j1 j2 m : Json)
       (dev : DeviceState),
       parseDatagram d1 = some j1 → parseDatagram d2 = some j2 →
       jsonHasKey j1 key_state_string = true → jsonHasKey j2 key_state_string = true →
       midOf j1 = m → midOf j2 = m → pyTruthy m = true → jsonHashable m = true →
       stepEmit j1 = some dev → (stepEmit j2).isSome = true →
       listenerRun order [] [d1, d2] = ([m], [dev])) ∧
    (∀ (order : List Json → List Json) (processed : List Json) (data : Bytes)
       (j : Json) (dev : DeviceState),
       parseDatagram data = some j → jsonHasKey j key_state_string = true →
       midOf j = Json.str [] → stepEmit j = some dev → processed.length ≤ 100 →
       listenerStep order processed data = (processed, some dev)) := by
  constructor
  · intro order d1 d2 j1 j2 m dev hp1 hp2 hk1 hk2 hm1 hm2 htru hhash hdev _
    have h1 : listenerStep order [] d1 = ([m], some dev) := by
      rw [listenerStep_fresh order [] d1 j1 hp1 hk1 (by simp) (fun _ => hm1 ▸ hhash)]
      rw [hm1, hdev, stepCache_small order [] m htru (by simp)]
      rfl
    have h2 : listenerStep order [m] d2 = ([m], none) := by
      refine listenerStep_dup order [m] d2 j2 hp2 hk2 ?_ ?_ ?_
      · rw [hm2]; exact htru
      · rw [hm2]; exact hhash
      · rw [hm2]; exact List.mem_singleton.mpr rfl
    simp [listenerRun, h1, h2]
  · intro order processed data j dev hp hk hm hdev hlen
    have ht : pyTruthy (midOf j) = false := by rw [hm]; rfl
    rw [listenerStep_fresh order processed data j hp hk
      (fun hc => by rw [ht] at hc; exact absurd hc.1 (by simp))
      (fun hc => by rw [ht] at hc; exact absurd hc (by simp))]
    rw [stepCache_falsy order processed (midOf j) ht hlen, hdev]

/-- Witness for C3: the end-to-end two-datagram scenario with
`message_id "m1"`, and the empty-id scenario. -/
theorem dedup_same_message_id_w :
    listenerRun id [] [utf8Encode (strCps "\x7b\"state_string\": \"176\", \"message_id\": \"m1\"\x7d"),
                       utf8Encode (strCps "\x7b\"state_string\": \"176\", \"message_id\": \"m1\"\x7d")]
      = ([Json.str (strCps "m1")],
         [{ decode_bits 176 with device_id := Json.str [], raw_state := strCps "176" }]) ∧
    listenerStep id [] (utf8Encode (strCps "\x7b\"state_string\": \"176\"\x7d"))
      = ([], some { decode_bits 176 with device_id := Json.str [], raw_state := strCps "176" }) :=
  ⟨dedup_same_message_id.1 id _ _
      (Json.obj [(key_state_string, Json.str (strCps "176")),
                 (key_message_id, Json.str (strCps "m1"))])
      (Json.obj [(key_state_string, Json.str (strCps "176")),
                 (key_message_id, Json.str (strCps "m1"))])
      (Json.str (strCps "m1"))
      { decode_bits 176 with device_id := Json.str [], raw_state := strCps "176" }
      rfl rfl rfl rfl rfl rfl rfl rfl rfl rfl,
   dedup_same_message_id.2 id [] _
      (Json.obj [(key_state_string, Json.str (strCps "176"))])
      { decode_bits 176 with device_id := Json.str [], raw_state := strCps "176" }
      rfl rfl rfl rfl (by decide)⟩

/-! ## C10: a fresh `message_id` is cached before the bitfield decode -/

/-- C10: a previously unseen truthy `message_id` is inserted before the
bitfield is decoded, so a message whose `state_string` first sub-field is
not an integer emits nothing yet still poisons its id: any later message
with the same id is discarded as a duplicate, and two identical such sends
yield zero emissions in total. -/
theorem message_id_cached_before_decode (order : List Json → List Json)
    (processed : List Json) (data : Bytes) (j : Json) (s : Text)
    (hp : parseDatagram data = some j) (hk : jsonHasKey j key_state_string = true)
    (ht : pyTruthy (midOf j) = true) (hh : jsonHashable (midOf j) = true)
    (hf : midOf j ∉ processed) (hlen : processed.length < 100)
    (hss : jsonGetD j key_state_string (Json.str []) = Json.str s)
    (hbad : decode_state_value (splitComma s).headI = none) :
    listenerStep order processed data = (processed ++ [midOf j], none) ∧
    (∀ (d2 : Bytes) (j2 : Json), parseDatagram d2 = some j2 →
       jsonHasKey j2 key_state_string = true → midOf j2 = midOf j →
       listenerStep order (processed ++ [midOf j]) d2 = (processed ++ [midOf j], none)) ∧
    (listenerRun order processed [data, data]).2 = [] := by
  have h1 : listenerStep order processed data = (processed ++ [midOf j], none) := by
    rw [listenerStep_fresh order processed data j hp hk (fun hc => hf hc.2) (fun _ => hh)]
    rw [stepCache_small order processed (midOf j) ht hlen]
    have : stepEmit j = none := by simp [stepEmit, hss, hbad]
    rw [this]
  have h2 : ∀ (d2 : Bytes) (j2 : Json), parseDatagram d2 = some j2 →
      jsonHasKey j2 key_state_string = true → midOf j2 = midOf j →
      listenerStep order (processed ++ [midOf j]) d2 = (processed ++ [midOf j], none) := by
    intro d2 j2 hp2 hk2 hm2
    refine listenerStep_dup order _ d2 j2 hp2 hk2 ?_ ?_ ?_
    · rw [hm2]; exact ht
    · rw [hm2]; exact hh
    · rw [hm2]; exact List.mem_append.mpr (Or.inr (List.mem_singleton.mpr rfl))
  refine ⟨h1, h2, ?_⟩
  simp [listenerRun, h1, h2 data j hp hk rfl]

/-- Witness for C10: a fresh id `"m9"` with a non-numeric first sub-field. -/
theorem message_id_cached_before_decode_w :
    listenerStep id [] (utf8Encode (strCps "\x7b\"state_string\": \"xx,0\", \"message_id\": \"m9\"\x7d"))
      = ([Json.str (strCps "m9")], none) ∧
    (listenerRun id [] [utf8Encode (strCps "\x7b\"state_string\": \"xx,0\", \"message_id\": \"m9\"\x7d"),
                        utf8Encode (strCps "\x7b\"state_string\": \"xx,0\", \"message_id\": \"m9\"\x7d")]).2
      = [] := by
  have h := message_id_cached_before_decode id []
    (utf8Encode (strCps "\x7b\"state_string\": \"xx,0\", \"message_id\": \"m9\"\x7d"))
    (Json.obj [(key_state_string, Json.str (strCps "xx,0")),
               (key_message_id, Json.str (strCps "m9"))])
    (strCps "xx,0")
    rfl rfl rfl rfl (List.not_mem_nil _) (by decide) rfl rfl
  exact ⟨h.1, h.2.2⟩

/-! ## C9: the registry assigns the first eligible slot only -/

/-- Index of the first slot that is unassigned or already holds `did`
(the spec's scan order). -/
def firstEligible (did : Json) : Registry → Option Nat
  | [] => none
  | slot :: rest =>
    if slot.2 = none ∨ slot.2 = some did then some 0
    else (firstEligible did rest).map (· + 1)

/-- The registry update as the spec describes it: no-op on an empty
`device_id`, otherwise rewrite exactly the first eligible slot and keep
every other slot unchanged. -/
def spec_observe (reg : Registry) (did : Text) : Registry :=
  if did = [] then reg
  else
    match firstEligible (Json.str did) reg with
    | some i =>
      reg.take i ++ [((reg.getD i ([], none)).1, some (Json.str did))] ++ reg.drop (i + 1)
    | none => reg

/-- Number of slots at which two registries differ. -/
def diffCount (a b : Registry) : Nat :=
  (a.zip b).countP (fun p => decide (p.1 ≠ p.2))

lemma diffCount_self (reg : Registry) : diffCount reg reg = 0 := by
  induction reg with
  | nil => rfl
  | cons slot rest ih =>
    unfold diffCount at *
    rw [List.zip_cons_cons, List.countP_cons, ih]
    simp

lemma assignFirst_spec (did : Json) (reg : Registry) :
    assignFirst did reg =
      match firstEligible did reg with
      | some i =>
        reg.take i ++ [((reg.getD i ([], none)).1, some did)] ++ reg.drop (i + 1)
      | none => reg := by
  induction reg with
  | nil => rfl
  | cons slot rest ih =>
    by_cases h : slot.2 = none ∨ slot.2 = some did
    · simp [assignFirst, firstEligible, h]
    · simp only [assignFirst, firstEligible, h, if_neg, if_false]
      cases hfe : firstEligible did rest with
      | none => simp [hfe] at ih; simp [hfe, ih]
      | some i =>
        simp [hfe] at ih
        simp [hfe, ih, List.take_succ_cons, List.getD_cons_succ, List.drop_succ_cons]

lemma assignFirst_diff (did : Json) (reg : Registry) :
    diffCount reg (assignFirst did reg) ≤ 1 := by
  induction reg with
  | nil => simp [assignFirst, diffCount]
  | cons slot rest ih =>
    by_cases h : slot.2 = none ∨ slot.2 = some did
    · simp only [assignFirst, h, if_true]
      simp only [diffCount, List.zip_cons_cons, List.countP_cons]
      have := diffCount_self rest
      unfold diffCount at this
      rw [this]
      split <;> simp
    · simp only [assignFirst, h, if_false]
      unfold diffCount at *
      rw [List.zip_cons_cons, List.countP_cons]
      have hz : (if decide ((slot, slot.1, slot.2).1 ≠ (slot, slot.1, slot.2).2) = true
          then 1 else 0) = 0 := by simp
      rw [hz, Nat.add_zero]
      exact ih

/-- C9: for every registry and every received string `device_id`, the
update equals the spec's first-eligible-slot assignment (no-op when the
id is empty), and at most one slot changes. -/
theorem registry_assigns_first_eligible_slot (reg : Registry) (did : Text) :
    observe_device reg (Json.str did) = spec_observe reg did ∧
    diffCount reg (observe_device reg (Json.str did)) ≤ 1 := by
  by_cases hd : did = []
  · subst hd
    have ht : pyTruthy (Json.str []) = false := rfl
    unfold observe_device spec_observe
    simp [ht, diffCount_self]
  · have ht : pyTruthy (Json.str did) = true := by
      simp [pyTruthy, List.isEmpty_iff, hd]
    unfold observe_device spec_observe
    simp only [ht, if_true, hd, if_false]
    exact ⟨assignFirst_spec (Json.str did) reg, assignFirst_diff (Json.str did) reg⟩

/-! ## C2: the deduplication-cache bound and trim -/

/-- The non-empty `message_id` a datagram frames to, when its envelope
parses and carries `state_string`. -/
def frameMid (d : Bytes) : Option Json :=
  match parseDatagram d with
  | some j => if jsonHasKey j key_state_string then some (midOf j) else none
  | none => none

lemma frameMid_inv (d : Bytes) (m : Json) (h : frameMid d = some m) :
    ∃ j, parseDatagram d = some j ∧ jsonHasKey j key_state_string = true ∧ midOf j = m := by
  unfold frameMid at h
  cases hp : parseDatagram d with
  | none => rw [hp] at h; exact absurd h (by simp)
  | some j =>
    rw [hp] at h
    by_cases hk : jsonHasKey j key_state_string
    · refine ⟨j, rfl, hk, ?_⟩
      have h' : (if jsonHasKey j key_state_string = true
          then some (midOf j) else none) = some m := h
      rw [if_pos hk] at h'
      exact Option.some.inj h'
    · have h' : (if jsonHasKey j key_state_string = true
          then some (midOf j) else none) = some m := h
      rw [if_neg hk] at h'
      exact absurd h' (by simp)

lemma listenerRun_nil (order : List Json → List Json) (c : List Json) :
    listenerRun order c [] = (c, []) := rfl

lemma listenerRun_cons (order : List Json → List Json) (c : List Json)
    (d : Bytes) (ds : List Bytes) :
    listenerRun order c (d :: ds)
      = ((listenerRun order (listenerStep order c d).1 ds).1,
         (listenerStep order c d).2.toList
           ++ (listenerRun order (listenerStep order c d).1 ds).2) := rfl

lemma listenerRun_append_fst (order : List Json → List Json) (ds1 ds2 : List Bytes) :
    ∀ c : List Json,
    (listenerRun order c (ds1 ++ ds2)).1
      = (listenerRun order (listenerRun order c ds1).1 ds2).1 := by
  induction ds1 with
  | nil => intro c; simp [listenerRun_nil]
  | cons d rest ih =>
    intro c
    rw [List.cons_append, listenerRun_cons order c d (rest ++ ds2),
      listenerRun_cons order c d rest]
    show (listenerRun order (listenerStep order c d).1 (rest ++ ds2)).1
      = (listenerRun order (listenerRun order (listenerStep order c d).1 rest).1 ds2).1
    exact ih (listenerStep order c d).1

/-- Processing fresh, truthy, hashable ids with room in the cache appends
them in arrival order. -/
lemma listenerRun_cache_fresh (order : List Json → List Json) :
    ∀ (ds : List Bytes) (ms : List Json) (processed : List Json),
    ds.map frameMid = ms.map some →
    (∀ m ∈ ms, pyTruthy m = true ∧ jsonHashable m = true) →
    (processed ++ ms).Nodup →
    processed.length + ds.length ≤ 100 →
    (listenerRun order processed ds).1 = processed ++ ms := by
  intro ds
  induction ds with
  | nil =>
    intro ms processed hframe _ _ _
    have : ms = [] := by
      cases ms with
      | nil => rfl
      | cons m ms' => exact absurd hframe (by simp)
    subst this
    simp [listenerRun_nil]
  | cons d rest ih =>
    intro ms processed hframe hok hnd hlen
    cases ms with
    | nil => exact absurd hframe (by simp)
    | cons m ms' =>
      simp only [List.map_cons, List.cons.injEq] at hframe
      obtain ⟨hfd, hfr⟩ := hframe
      obtain ⟨j, hp, hk, hmid⟩ := frameMid_inv d m hfd
      have hmok := hok m (List.mem_cons_self m ms')
      have hmnotin : m ∉ processed := by
        intro hmem
        have := (List.nodup_append.mp hnd).2.2
        exact this hmem (List.mem_cons_self m ms')
      have hstep : listenerStep order processed d = (processed ++ [m], stepEmit j) := by
        rw [listenerStep_fresh order processed d j hp hk
          (fun hc => hmnotin (hmid ▸ hc.2)) (fun _ => hmid ▸ hmok.2)]
        rw [hmid, stepCache_small order processed m hmok.1 (by simp at hlen; omega)]
      rw [listenerRun_cons, hstep]
      show (listenerRun order (processed ++ [m]) rest).1 = _
      rw [ih ms' (processed ++ [m]) hfr
        (fun x hx => hok x (List.mem_cons_of_mem m hx))
        (by simpa [List.append_assoc] using hnd)
        (by simp at hlen ⊢; omega)]
      simp

/-- After 101 fresh, truthy, hashable ids from an empty cache, the cache is
exactly the trim of the full id list: the last 50 of the unspecified
iteration order. -/
lemma listenerRun_101_cache (order : List Json → List Json) (ds : List Bytes)
    (ms : List Json)
    (hframe : ds.map frameMid = ms.map some)
    (hok : ∀ m ∈ ms, pyTruthy m = true ∧ jsonHashable m = true)
    (hnd : ms.Nodup) (hlen : ds.length = 101) :
    (listenerRun order [] ds).1 = trimCache order ms := by
  have hmslen : ms.length = 101 := by
    have := congrArg List.length hframe
    simpa [hlen] using this.symm
  have hsplit : ds = ds.take 100 ++ ds.drop 100 := (List.take_append_drop 100 ds).symm
  have hmsplit : ms = ms.take 100 ++ ms.drop 100 := (List.take_append_drop 100 ms).symm
  have hftake : (ds.take 100).map frameMid = (ms.take 100).map some := by
    rw [List.map_take, List.map_take, hframe]
  have hfdrop : (ds.drop 100).map frameMid = (ms.drop 100).map some := by
    rw [List.map_drop, List.map_drop, hframe]
  obtain ⟨mL, hmL⟩ : ∃ mL, ms.drop 100 = [mL] := by
    have h1 : (ms.drop 100).length = 1 := by rw [List.length_drop, hmslen]
    cases hdd : ms.drop 100 with
    | nil => rw [hdd] at h1; exact absurd h1 (by simp)
    | cons x xs =>
      rw [hdd] at h1
      simp at h1
      exact ⟨x, by rw [h1]⟩
  obtain ⟨dL, hdL⟩ : ∃ dL, ds.drop 100 = [dL] := by
    have h1 : (ds.drop 100).length = 1 := by rw [List.length_drop, hlen]
    cases hdd : ds.drop 100 with
    | nil => rw [hdd] at h1; exact absurd h1 (by simp)
    | cons x xs =>
      rw [hdd] at h1
      simp at h1
      exact ⟨x, by rw [h1]⟩
  have hfL : frameMid dL = some mL := by
    rw [hdL, hmL] at hfdrop
    simpa using hfdrop
  obtain ⟨j, hp, hk, hmid⟩ := frameMid_inv dL mL hfL
  have hmLok : pyTruthy mL = true ∧ jsonHashable mL = true :=
    hok mL (by rw [hmsplit, hmL]; exact List.mem_append.mpr (Or.inr (by simp)))
  -- run over the first 100 datagrams: all fresh, cache fills in order
  have htakeok : ∀ m ∈ ms.take 100, pyTruthy m = true ∧ jsonHashable m = true :=
    fun m hm => hok m (List.mem_of_mem_take hm)
  have htakend : ([] ++ ms.take 100).Nodup := by
    simpa using (List.Nodup.sublist (List.take_sublist 100 ms) hnd)
  have hcache100 : (listenerRun order [] (ds.take 100)).1 = ms.take 100 := by
    have := listenerRun_cache_fresh order (ds.take 100) (ms.take 100) [] hftake htakeok
      htakend (by simp [List.length_take, hlen])
    simpa using this
  -- the 101st datagram overflows the cache and triggers the trim
  have htk100 : (ms.take 100).length = 100 := by
    rw [List.length_take]
    omega
  have hnotin : mL ∉ ms.take 100 := by
    intro hmem
    rw [hmsplit] at hnd
    have := (List.nodup_append.mp hnd).2.2
    exact this hmem (by rw [hmL]; simp)
  have hstepL : listenerStep order (ms.take 100) dL
      = (trimCache order (ms.take 100 ++ [mL]), stepEmit j) := by
    rw [listenerStep_fresh order (ms.take 100) dL j hp hk
      (fun hc => hnotin (hmid ▸ hc.2)) (fun _ => hmid ▸ hmLok.2)]
    have : stepCache order (ms.take 100) (midOf j)
        = trimCache order (ms.take 100 ++ [midOf j]) := by
      have h1 : (if pyTruthy (midOf j) = true then ms.take 100 ++ [midOf j]
          else ms.take 100) = ms.take 100 ++ [midOf j] := if_pos (hmid ▸ hmLok.1)
      have h2 : 100 < (ms.take 100 ++ [midOf j]).length := by
        simp [htk100]
      simp only [stepCache, h1]
      rw [if_pos h2]
    rw [this, hmid]
  calc (listenerRun order [] ds).1
      = (listenerRun order (listenerRun order [] (ds.take 100)).1 (ds.drop 100)).1 := by
        conv_lhs => rw [hsplit]
        rw [← listenerRun_append_fst]
    _ = trimCache order (ms.take 100 ++ [mL]) := by
        rw [hcache100, hdL, listenerRun_cons, hstepL]
        rfl
    _ = trimCache order ms := by rw [← hmL, ← hmsplit]

/-- C2 (amended): from an empty cache, processing 101 datagrams carrying
101 distinct non-empty (truthy, hashable) `message_id`s leaves the cache at
exactly 50 entries — the last 50 of the unspecified set iteration order,
not necessarily the most recently inserted — every surviving id is one of
the inserted ids, and resending a surviving id is treated as a duplicate
(skipped, cache unchanged). -/
theorem cache_trim_bound (order : List Json → List Json) (hord : IsIterOrder order)
    (ds : List Bytes) (ms : List Json)
    (hframe : ds.map frameMid = ms.map some)
    (hok : ∀ m ∈ ms, pyTruthy m = true ∧ jsonHashable m = true)
    (hnd : ms.Nodup) (hlen : ds.length = 101) :
    (listenerRun order [] ds).1.length = 50 ∧
    (∀ m ∈ (listenerRun order [] ds).1, m ∈ ms) ∧
    (∀ (d2 : Bytes) (j2 : Json), parseDatagram d2 = some j2 →
       jsonHasKey j2 key_state_string = true →
       midOf j2 ∈ (listenerRun order [] ds).1 →
       listenerStep order (listenerRun order [] ds).1 d2
         = ((listenerRun order [] ds).1, none)) := by
  have hcache := listenerRun_101_cache order ds ms hframe hok hnd hlen
  have hmslen : ms.length = 101 := by
    have := congrArg List.length hframe
    simpa [hlen] using this.symm
  have horderlen : (order ms).length = 101 := (hord ms).length_eq.trans hmslen
  have htrimlen : (trimCache order ms).length = 50 := by
    simp only [trimCache]
    rw [List.length_drop, horderlen]
  have hsub : ∀ m ∈ trimCache order ms, m ∈ ms := by
    intro m hm
    simp only [trimCache] at hm
    exact (hord ms).subset (List.mem_of_mem_drop hm)
  refine ⟨by rw [hcache]; exact htrimlen, by rw [hcache]; exact hsub, ?_⟩
  intro d2 j2 hp2 hk2 hmem
  rw [hcache] at hmem ⊢
  exact listenerStep_dup order _ d2 j2 hp2 hk2
    (hok _ (hsub _ hmem)).1 (hok _ (hsub _ hmem)).2 hmem

/-- A concrete broadcast with `message_id "m<n>"`. -/
def exPayload (n : Nat) : Text :=
  strCps "\x7b\"state_string\": \"176\", \"message_id\": \"m" ++ natRepr n ++ strCps "\"\x7d"

def exDatagram (n : Nat) : Bytes := utf8Encode (exPayload n)

/-- 101 broadcasts with distinct ids `m0 .. m100`. -/
def exDatagrams : List Bytes := (List.range 101).map exDatagram

def exIds : List Json := (List.range 101).map (fun n => Json.str (strCps "m" ++ natRepr n))

set_option maxRecDepth 8000 in
set_option maxHeartbeats 4000000 in
/-- Counterexample to C2 as stated: with the (legitimate) iteration order
that enumerates the set in reverse insertion order, the 50 survivors are
the 50 *oldest* ids; the most recent id `m100` is evicted, and resending
it is *not* treated as a duplicate — it is emitted again. -/
theorem cache_trim_keeps_unspecified_ids :
    IsIterOrder (List.reverse : List Json → List Json) ∧
    Json.str (strCps "m100") ∈ exIds ∧
    Json.str (strCps "m100") ∉ (listenerRun List.reverse [] exDatagrams).1 ∧
    (listenerStep List.reverse (listenerRun List.reverse [] exDatagrams).1
      (exDatagram 100)).2 ≠ none := by
  have hord : IsIterOrder (List.reverse : List Json → List Json) :=
    fun l => l.reverse_perm
  have hcache := listenerRun_101_cache List.reverse exDatagrams exIds
    (by decide) (by decide) (by decide) (by decide)
  refine ⟨hord, by decide, ?_, ?_⟩
  · rw [hcache]; decide
  · rw [hcache]; decide

set_option maxRecDepth 8000 in
set_option maxHeartbeats 4000000 in
/-- Witness for the amended C2 with the identity iteration order. -/
theorem cache_trim_bound_w :
    (listenerRun id [] exDatagrams).1.length = 50 ∧
    ∀ m ∈ (listenerRun id [] exDatagrams).1, m ∈ exIds := by
  have h := cache_trim_bound id (fun l => List.Perm.refl l) exDatagrams exIds
    (by decide) (by decide) (by decide) (by decide)
  exact ⟨h.1, h.2.1⟩

/-! ## C4: hex-encoded and plain payloads decode alike -/

lemma utf8Decode_ascii (l : Bytes) (h : ∀ c ∈ l, c < 0x80) :
    utf8Decode l = some l := by
  unfold utf8Decode
  induction l with
  | nil => rfl
  | cons b rest ih =>
    have hb : b < 0x80 := h b (List.mem_cons_self b rest)
    simp only [utf8DecodeAux]
    rw [if_pos hb, ih (fun c hc => h c (List.mem_cons_of_mem b hc))]
    rfl

lemma isCont_true (b : Nat) (h1 : 0x80 ≤ b) (h2 : b < 0xC0) : isCont b = true := by
  unfold isCont
  rw [Bool.and_eq_true, decide_eq_true_eq, decide_eq_true_eq]
  exact ⟨h1, h2⟩

lemma utf8Decode_encodeChar (c : Nat) (hc1 : c < 0x110000)
    (hc2 : ¬(0xD800 ≤ c ∧ c < 0xE000)) (rest : Bytes) :
    utf8Decode (utf8EncodeChar c ++ rest) = (utf8Decode rest).map (c :: ·) := by
  unfold utf8Decode utf8EncodeChar
  by_cases h1 : c < 0x80
  · rw [if_pos h1]
    show utf8DecodeAux 0 0 0 (c :: rest) = _
    simp only [utf8DecodeAux]
    rw [if_pos h1]
  · rw [if_neg h1]
    by_cases h2 : c < 0x800
    · rw [if_pos h2]
      show utf8DecodeAux 0 0 0 ((0xC0 + c / 64) :: (0x80 + c % 64) :: rest) = _
      simp only [utf8DecodeAux]
      rw [if_neg (by omega), if_neg (by omega), if_pos (by omega),
        if_pos (isCont_true _ (by omega) (by omega))]
      have hval : (0xC0 + c / 64 - 0xC0) * 64 + (0x80 + c % 64 - 0x80) = c := by omega
      rw [hval, if_pos ⟨by omega, by omega, by omega⟩]
    · rw [if_neg h2]
      by_cases h3 : c < 0x10000
      · rw [if_pos h3]
        show utf8DecodeAux 0 0 0
          ((0xE0 + c / 4096) :: (0x80 + c / 64 % 64) :: (0x80 + c % 64) :: rest) = _
        simp only [utf8DecodeAux]
        rw [if_neg (by omega), if_neg (by omega), if_neg (by omega), if_pos (by omega),
          if_pos (isCont_true _ (by omega) (by omega)),
          if_pos (isCont_true _ (by omega) (by omega))]
        have hval : ((0xE0 + c / 4096 - 0xE0) * 64 + (0x80 + c / 64 % 64 - 0x80)) * 64
            + (0x80 + c % 64 - 0x80) = c := by omega
        rw [hval, if_pos ⟨by omega, hc2, by omega⟩]
      · rw [if_neg h3]
        show utf8DecodeAux 0 0 0 ((0xF0 + c / 262144) :: (0x80 + c / 4096 % 64)
          :: (0x80 + c / 64 % 64) :: (0x80 + c % 64) :: rest) = _
        simp only [utf8DecodeAux]
        rw [if_neg (by omega), if_neg (by omega), if_neg (by omega), if_neg (by omega),
          if_pos (by omega),
          if_pos (isCont_true _ (by omega) (by omega)),
          if_pos (isCont_true _ (by omega) (by omega)),
          if_pos (isCont_true _ (by omega) (by omega))]
        have hval : (((0xF0 + c / 262144 - 0xF0) * 64 + (0x80 + c / 4096 % 64 - 0x80)) * 64
            + (0x80 + c / 64 % 64 - 0x80)) * 64 + (0x80 + c % 64 - 0x80) = c := by omega
        rw [hval, if_pos ⟨by omega, hc2, by omega⟩]

lemma utf8Decode_utf8Encode (t : Text) (h : ValidText t) :
    utf8Decode (utf8Encode t) = some t := by
  induction t with
  | nil => rfl
  | cons c rest ih =>
    have hc := h c (List.mem_cons_self c rest)
    have : utf8Encode (c :: rest) = utf8EncodeChar c ++ utf8Encode rest := rfl
    rw [this, utf8Decode_encodeChar c hc.1 hc.2,
      ih (fun x hx => h x (List.mem_cons_of_mem c hx))]
    rfl

lemma utf8EncodeChar_lt (c : Nat) (h : c < 0x110000) :
    ∀ b ∈ utf8EncodeChar c, b < 256 := by
  intro b hb
  unfold utf8EncodeChar at hb
  split_ifs at hb <;> simp at hb <;> omega

lemma utf8Encode_lt (t : Text) (h : ValidText t) : ∀ b ∈ utf8Encode t, b < 256 := by
  intro b hb
  simp only [utf8Encode, List.mem_flatMap] at hb
  obtain ⟨c, hc, hbc⟩ := hb
  exact utf8EncodeChar_lt c (h c hc).1 b hbc

lemma hexDigitCp_range (n : Nat) (h : n < 16) :
    (48 ≤ hexDigitCp n ∧ hexDigitCp n ≤ 57) ∨ (97 ≤ hexDigitCp n ∧ hexDigitCp n ≤ 102) := by
  unfold hexDigitCp
  split_ifs <;> omega

lemma hexDigitCp_isHex (n : Nat) (h : n < 16) : isHexDigitCp (hexDigitCp n) = true := by
  have := hexDigitCp_range n h
  simp only [isHexDigitCp]
  simp
  omega

lemma hexVal_hexDigitCp (n : Nat) (h : n < 16) : hexVal (hexDigitCp n) = n := by
  unfold hexVal hexDigitCp
  split_ifs <;> omega

lemma bytesFromHex_bytesToHex (bs : Bytes) (h : ∀ b ∈ bs, b < 256) :
    bytesFromHex (bytesToHex bs) = some bs := by
  induction bs with
  | nil => rfl
  | cons b rest ih =>
    have hb : b < 256 := h b (List.mem_cons_self b rest)
    show bytesFromHex (hexDigitCp (b / 16) :: hexDigitCp (b % 16) :: bytesToHex rest) = _
    simp only [bytesFromHex]
    rw [if_pos (by rw [hexDigitCp_isHex (b / 16) (by omega), hexDigitCp_isHex (b % 16) (by omega)]; rfl)]
    rw [ih (fun x hx => h x (List.mem_cons_of_mem b hx))]
    have : hexVal (hexDigitCp (b / 16)) * 16 + hexVal (hexDigitCp (b % 16)) = b := by
      rw [hexVal_hexDigitCp (b / 16) (by omega), hexVal_hexDigitCp (b % 16) (by omega)]
      omega
    simp [this]

lemma bytesToHex_mem (bs : Bytes) (h : ∀ b ∈ bs, b < 256) : ∀ x ∈ bytesToHex bs,
    isHexDigitCp x = true ∧ x < 0x80 ∧ pyIsSpace x = false := by
  induction bs with
  | nil => intro x hx; exact absurd hx (by simp [bytesToHex])
  | cons b rest ih =>
    intro x hx
    have hb : b < 256 := h b (List.mem_cons_self b rest)
    simp only [bytesToHex, List.mem_cons] at hx
    have hgen : ∀ n, n < 16 → isHexDigitCp (hexDigitCp n) = true ∧
        hexDigitCp n < 0x80 ∧ pyIsSpace (hexDigitCp n) = false := by
      intro n hn
      refine ⟨hexDigitCp_isHex n hn, ?_, ?_⟩
      · have := hexDigitCp_range n hn; omega
      · have := hexDigitCp_range n hn
        simp only [pyIsSpace]
        simp
        omega
    rcases hx with hx | hx | hx
    · exact hx ▸ hgen (b / 16) (by omega)
    · exact hx ▸ hgen (b % 16) (by omega)
    · exact ih (fun y hy => h y (List.mem_cons_of_mem b hy)) x hx

lemma dropWhile_eq_self_of_none (p : Nat → Bool) (l : Text)
    (h : ∀ c ∈ l, p c = false) : l.dropWhile p = l := by
  cases l with
  | nil => rfl
  | cons c rest => exact List.dropWhile_cons_of_neg (by simp [h c (List.mem_cons_self c rest)])

lemma pyStrip_of_no_ws (l : Text) (h : ∀ c ∈ l, pyIsSpace c = false) :
    pyStrip l = l := by
  unfold pyStrip dropTrailing
  rw [dropWhile_eq_self_of_none pyIsSpace l h,
    dropWhile_eq_self_of_none pyIsSpace l.reverse (fun c hc => h c (List.mem_reverse.mp hc)),
    List.reverse_reverse]

lemma json_ws_sub (c : Nat) (h : jsonIsSpace c = true) : pyIsSpace c = true := by
  simp only [jsonIsSpace] at h
  simp only [pyIsSpace]
  simp at h ⊢
  omega

lemma dropWhile_json_eq_py (l : Text)
    (h : ∀ c ∈ l.takeWhile pyIsSpace, jsonIsSpace c = true) :
    l.dropWhile jsonIsSpace = l.dropWhile pyIsSpace := by
  induction l with
  | nil => rfl
  | cons c rest ih =>
    by_cases hp : pyIsSpace c = true
    · have hj : jsonIsSpace c = true := by
        apply h
        rw [List.takeWhile_cons_of_pos hp]
        exact List.mem_cons_self _ _
      have htl : ∀ x ∈ rest.takeWhile pyIsSpace, jsonIsSpace x = true := by
        intro x hx
        apply h
        rw [List.takeWhile_cons_of_pos hp]
        exact List.mem_cons_of_mem _ hx
      rw [List.dropWhile_cons_of_pos hj, List.dropWhile_cons_of_pos hp]
      exact ih htl
    · have hj : ¬ jsonIsSpace c = true := fun hj => hp (json_ws_sub c hj)
      rw [List.dropWhile_cons_of_neg (by simpa using hj),
        List.dropWhile_cons_of_neg (by simpa using hp)]

lemma takeWhile_dropWhile_nil (p : Nat → Bool) (l : Text) :
    (l.dropWhile p).takeWhile p = [] := by
  induction l with
  | nil => rfl
  | cons c rest ih =>
    by_cases hp : p c = true
    · rw [List.dropWhile_cons_of_pos hp]; exact ih
    · rw [List.dropWhile_cons_of_neg (by simpa using hp),
        List.takeWhile_cons_of_neg (by simpa using hp)]

/-- Decomposition used below: a list is its `dropTrailing` part followed by
its trailing all-`p` run. -/
lemma dropTrailing_decomp (p : Nat → Bool) (l : Text) :
    l = dropTrailing p l ++ (l.reverse.takeWhile p).reverse := by
  unfold dropTrailing
  have h := List.takeWhile_append_dropWhile (p := p) (l := l.reverse)
  have h2 := congrArg List.reverse h
  rw [List.reverse_append, List.reverse_reverse] at h2
  exact h2.symm

/-- The head of `pyStrip t` (when present) is not Python whitespace. -/
lemma pyStrip_head_not_ws (t : Text) (c : Nat) (z : Text)
    (h : pyStrip t = c :: z) : pyIsSpace c = false := by
  have hu : (t.dropWhile pyIsSpace).takeWhile pyIsSpace = [] :=
    takeWhile_dropWhile_nil pyIsSpace t
  have hdec := dropTrailing_decomp pyIsSpace (t.dropWhile pyIsSpace)
  unfold pyStrip at h
  rw [h] at hdec
  rw [List.cons_append] at hdec
  rw [hdec] at hu
  by_cases hp : pyIsSpace c = true
  · rw [List.takeWhile_cons_of_pos hp] at hu
    exact absurd hu (by simp)
  · simpa using hp

/-- The trailing reverse of `pyStrip t` starts with non-whitespace too. -/
lemma pyStrip_reverse_takeWhile (t : Text) :
    (pyStrip t).reverse.takeWhile pyIsSpace = [] := by
  unfold pyStrip dropTrailing
  rw [List.reverse_reverse]
  exact takeWhile_dropWhile_nil pyIsSpace (t.dropWhile pyIsSpace).reverse

/-- Under the amendment hypotheses, the JSON-level trim of the raw text and
of its `strip()` agree: both equal `pyStrip t`. -/
lemma jsonTrim_eq_pyStrip (t : Text)
    (hlead : ∀ c ∈ t.takeWhile pyIsSpace, jsonIsSpace c = true)
    (htrail : ∀ c ∈ (t.dropWhile pyIsSpace).reverse.takeWhile pyIsSpace, jsonIsSpace c = true) :
    jsonTrim t = pyStrip t := by
  unfold jsonTrim pyStrip dropTrailing
  rw [dropWhile_json_eq_py t hlead]
  rw [dropWhile_json_eq_py (t.dropWhile pyIsSpace).reverse htrail]

lemma dropWhile_eq_self_of_takeWhile_nil (p : Nat → Bool) (l : Text)
    (h : l.takeWhile p = []) : l.dropWhile p = l := by
  cases l with
  | nil => rfl
  | cons c rest =>
    by_cases hp : p c = true
    · rw [List.takeWhile_cons_of_pos hp] at h
      exact absurd h (by simp)
    · exact List.dropWhile_cons_of_neg (by simpa using hp)

lemma pyStrip_takeWhile_nil (t : Text) : (pyStrip t).takeWhile pyIsSpace = [] := by
  cases hs : pyStrip t with
  | nil => rfl
  | cons a z => exact List.takeWhile_cons_of_neg (by simp [pyStrip_head_not_ws t a z hs])

lemma pyStrip_idem (t : Text) : pyStrip (pyStrip t) = pyStrip t := by
  show dropTrailing pyIsSpace ((pyStrip t).dropWhile pyIsSpace) = pyStrip t
  rw [dropWhile_eq_self_of_takeWhile_nil pyIsSpace _ (pyStrip_takeWhile_nil t)]
  unfold dropTrailing
  rw [dropWhile_eq_self_of_takeWhile_nil pyIsSpace _ (pyStrip_reverse_takeWhile t),
    List.reverse_reverse]

lemma jsonTrim_pyStrip_self (t : Text) : jsonTrim (pyStrip t) = pyStrip t := by
  have hlead : ∀ c ∈ (pyStrip t).takeWhile pyIsSpace, jsonIsSpace c = true := by
    rw [pyStrip_takeWhile_nil t]
    simp
  have htrail : ∀ c ∈ ((pyStrip t).dropWhile pyIsSpace).reverse.takeWhile pyIsSpace,
      jsonIsSpace c = true := by
    rw [dropWhile_eq_self_of_takeWhile_nil pyIsSpace _ (pyStrip_takeWhile_nil t),
      pyStrip_reverse_takeWhile t]
    simp
  rw [jsonTrim_eq_pyStrip (pyStrip t) hlead htrail, pyStrip_idem]

/-- C4 (amended): for every valid text `t` whose stripped form contains a
non-hex-digit character *and whose leading/trailing whitespace consists
only of JSON whitespace (space, tab, LF, CR)*, framing the hex-ASCII
encoding of `t` parses to the same envelope as framing `t` directly; and
whenever the hex re-interpretation sub-step fails, `ascii_data` falls back
to the stripped original text rather than failing. -/
theorem hex_and_plain_parse_alike :
    (∀ t : Text, ValidText t →
       (∃ c ∈ pyStrip t, isHexDigitCp c = false) →
       (∀ c ∈ t.takeWhile pyIsSpace, jsonIsSpace c = true) →
       (∀ c ∈ (t.dropWhile pyIsSpace).reverse.takeWhile pyIsSpace, jsonIsSpace c = true) →
       parseDatagram (bytesToHex (utf8Encode t)) = parseDatagram (utf8Encode t)) ∧
    (∀ t : Text, (pyStrip t).all isHexDigitCp = true →
       hexReinterpret (pyStrip t) = none → asciiData t = pyStrip t) := by
  constructor
  · intro t hvalid hnonhex hlead htrail
    have hbytes : ∀ b ∈ utf8Encode t, b < 256 := utf8Encode_lt t hvalid
    have hhexchars := bytesToHex_mem (utf8Encode t) hbytes
    have hdec1 : utf8Decode (bytesToHex (utf8Encode t)) = some (bytesToHex (utf8Encode t)) :=
      utf8Decode_ascii _ (fun c hc => (hhexchars c hc).2.1)
    have hstrip1 : pyStrip (bytesToHex (utf8Encode t)) = bytesToHex (utf8Encode t) :=
      pyStrip_of_no_ws _ (fun c hc => (hhexchars c hc).2.2)
    have hall1 : (bytesToHex (utf8Encode t)).all isHexDigitCp = true :=
      List.all_eq_true.mpr (fun c hc => (hhexchars c hc).1)
    have hreint : hexReinterpret (bytesToHex (utf8Encode t)) = some t := by
      unfold hexReinterpret
      rw [bytesFromHex_bytesToHex _ hbytes]
      show utf8Decode (utf8Encode t) = some t
      exact utf8Decode_utf8Encode t hvalid
    have hascii1 : asciiData (bytesToHex (utf8Encode t)) = t := by
      unfold asciiData
      rw [hstrip1, if_pos hall1, hreint]
    have hdec2 : utf8Decode (utf8Encode t) = some t := utf8Decode_utf8Encode t hvalid
    have hall2 : (pyStrip t).all isHexDigitCp = false := by
      obtain ⟨c, hc, hcbad⟩ := hnonhex
      rw [← Bool.not_eq_true, List.all_eq_true]
      intro hallt
      rw [hallt c hc] at hcbad
      exact absurd hcbad (by simp)
    have hascii2 : asciiData t = pyStrip t := by
      unfold asciiData
      rw [if_neg (by rw [hall2]; simp)]
    unfold parseDatagram
    rw [hdec1, hdec2]
    show jsonParse (asciiData (bytesToHex (utf8Encode t))) = jsonParse (asciiData t)
    rw [hascii1, hascii2]
    unfold jsonParse
    rw [jsonTrim_eq_pyStrip t hlead htrail, jsonTrim_pyStrip_self t]
  · intro t hall hfail
    unfold asciiData
    rw [if_pos hall, hfail]

/-- Counterexample to C4 as stated: `"\x0b\x7b...\x7d"` satisfies the claim's
hypothesis (its trimmed form contains non-hex characters) but `\x0b` is
Python whitespace and not JSON whitespace, so the direct framing strips it
and parses, while the hex framing recovers the unstripped text and
`json.loads` fails: the two framings disagree. -/
theorem hex_and_plain_counterexample :
    (∃ c ∈ pyStrip (strCps "\x0b\x7b\"state_string\": \"16\"\x7d"), isHexDigitCp c = false) ∧
    ValidText (strCps "\x0b\x7b\"state_string\": \"16\"\x7d") ∧
    parseDatagram (bytesToHex (utf8Encode (strCps "\x0b\x7b\"state_string\": \"16\"\x7d")))
      ≠ parseDatagram (utf8Encode (strCps "\x0b\x7b\"state_string\": \"16\"\x7d")) :=
  ⟨⟨123, by decide, by decide⟩, by decide, by decide⟩

/-- Witness for the amended C4: a payload padded with plain spaces, and a
fallback case (`"ff"` is all hex but not valid UTF-8 when re-interpreted). -/
theorem hex_and_plain_parse_alike_w :
    parseDatagram (bytesToHex (utf8Encode (strCps " \x7b\"state_string\": \"16\"\x7d ")))
      = parseDatagram (utf8Encode (strCps " \x7b\"state_string\": \"16\"\x7d ")) ∧
    asciiData (strCps "ff") = pyStrip (strCps "ff") :=
  ⟨hex_and_plain_parse_alike.1 (strCps " \x7b\"state_string\": \"16\"\x7d ")
      (by decide) ⟨123, by decide, by decide⟩ (by decide) (by decide),
   hex_and_plain_parse_alike.2 (strCps "ff") (by decide) (by decide)⟩

/-! ## C5 chain -/

lemma natReprAux_digits (f : Nat) : ∀ n, n < f → ∀ c ∈ natReprAux f n, 48 ≤ c ∧ c ≤ 57 := by
  induction f with
  | zero => intro n hn; omega
  | succ f ih =>
    intro n hn c hc
    rw [natReprAux] at hc
    by_cases h10 : n < 10
    · rw [if_pos h10] at hc
      simp at hc; omega
    · rw [if_neg h10] at hc
      rcases List.mem_append.mp hc with h | h
      · exact ih (n / 10) (by omega) c h
      · simp at h; omega

lemma natRepr_digits (n : Nat) : ∀ c ∈ natRepr n, 48 ≤ c ∧ c ≤ 57 :=
  natReprAux_digits (n + 1) n (Nat.lt_succ_self n)

lemma natReprAux_head_pos (f : Nat) : ∀ n, n < f → 0 < n →
    ∃ c cs, natReprAux f n = c :: cs ∧ 49 ≤ c ∧ c ≤ 57 := by
  induction f with
  | zero => intro n hn; omega
  | succ f ih =>
    intro n hn hp
    rw [natReprAux]
    by_cases h10 : n < 10
    · exact ⟨48 + n, [], by rw [if_pos h10], by omega, by omega⟩
    · obtain ⟨c, cs, he, h1, h2⟩ := ih (n / 10) (by omega) (by omega)
      exact ⟨c, cs ++ [48 + n % 10], by rw [if_neg h10, he]; rfl, h1, h2⟩

lemma natRepr_ne_nil (n : Nat) : natRepr n ≠ [] := by
  rw [natRepr, natReprAux]
  by_cases h10 : n < 10
  · rw [if_pos h10]; simp
  · rw [if_neg h10]; simp

lemma takeWhile_append_of_all (p : Nat → Bool) (l1 l2 : Text)
    (h : ∀ c ∈ l1, p c = true) :
    (l1 ++ l2).takeWhile p = l1 ++ l2.takeWhile p := by
  induction l1 with
  | nil => rfl
  | cons c rest ih =>
    rw [List.cons_append, List.takeWhile_cons_of_pos (h c (by simp)),
      ih (fun x hx => h x (by simp [hx])), List.cons_append]

lemma dropWhile_append_of_all (p : Nat → Bool) (l1 l2 : Text)
    (h : ∀ c ∈ l1, p c = true) :
    (l1 ++ l2).dropWhile p = l2.dropWhile p := by
  induction l1 with
  | nil => rfl
  | cons c rest ih =>
    rw [List.cons_append, List.dropWhile_cons_of_pos (h c (by simp)),
      ih (fun x hx => h x (by simp [hx]))]

lemma parseIntPart_natRepr (n : Nat) (T : Text) (hT : T.takeWhile isDigitCp = []) :
    parseIntPart (natRepr n ++ T) = some (natRepr n, T) := by
  by_cases hn : n = 0
  · subst hn
    show parseIntPart (48 :: T) = some ([48], T)
    rw [parseIntPart]
    rfl
  · obtain ⟨c, cs, he, h1, h2⟩ := natReprAux_head_pos (n + 1) n (Nat.lt_succ_self n) (by omega)
    have hcs : ∀ x ∈ cs, isDigitCp x = true := by
      intro x hx
      have := natRepr_digits n x (by rw [natRepr, he]; simp [hx])
      simp [isDigitCp]; omega
    rw [natRepr, he, List.cons_append, parseIntPart]
    have hc48 : (c == 48) = false := by simp; omega
    have hcdig : isDigitCp c = true := by simp [isDigitCp]; omega
    rw [hc48, hcdig]
    simp only [Bool.false_eq_true, if_false, if_true]
    rw [takeWhile_append_of_all _ _ _ hcs, dropWhile_append_of_all _ _ _ hcs,
      hT, dropWhile_eq_self_of_takeWhile_nil _ _ hT, List.append_nil]

lemma parseSignInt_natRepr (n : Nat) (T : Text) (hT : T.takeWhile isDigitCp = []) :
    parseSignInt (natRepr n ++ T) = some (natRepr n, T) := by
  have hd : ∃ c cs, natRepr n = c :: cs ∧ 48 ≤ c ∧ c ≤ 57 := by
    by_cases hn : n = 0
    · exact ⟨48, [], by subst hn; rfl, by omega, by omega⟩
    · obtain ⟨c, cs, he, h1, h2⟩ := natReprAux_head_pos (n + 1) n (Nat.lt_succ_self n) (by omega)
      exact ⟨c, cs, by rw [natRepr]; exact he, by omega, h2⟩
  obtain ⟨c, cs, he, h1, h2⟩ := hd
  rw [he, List.cons_append, parseSignInt.eq_def]
  split
  · rename_i r heq
    injection heq with heq1 _
    omega
  · rename_i hne
    rw [← List.cons_append, ← he]
    exact parseIntPart_natRepr n T hT

/-- The character (if any) after a serialized number neither extends the
digit run nor starts a fraction or exponent. -/
def NumStop (T : Text) : Prop :=
  match T with
  | [] => True
  | c :: _ => isDigitCp c = false ∧ c ≠ 46 ∧ c ≠ 101 ∧ c ≠ 69

lemma numStop_takeWhile (T : Text) (h : NumStop T) : T.takeWhile isDigitCp = [] := by
  cases T with
  | nil => rfl
  | cons c r => exact List.takeWhile_cons_of_neg (by simpa using h.1)

lemma parseFracPart_stop (T : Text) (h : NumStop T) : parseFracPart T = ([], T) := by
  cases T with
  | nil => rfl
  | cons c r =>
    rw [parseFracPart.eq_def]
    split
    · rename_i r' heq
      injection heq with h1 _
      exact absurd h1 h.2.1
    · rfl

lemma parseExpPart_stop (T : Text) (h : NumStop T) : parseExpPart T = ([], T) := by
  cases T with
  | nil => rfl
  | cons c r =>
    have hcc : (c == 101 || c == 69) = false := by
      simp only [Bool.or_eq_false_iff, beq_eq_false_iff_ne]
      exact ⟨h.2.2.1, h.2.2.2⟩
    simp only [parseExpPart, hcc]
    simp

lemma parseNumLit_intRepr (i : Int) (T : Text) (h : NumStop T) :
    parseNumLit (intRepr i ++ T) = some (intRepr i, T) := by
  have hTW := numStop_takeWhile T h
  by_cases hi : i < 0
  · rw [intRepr, if_pos hi, List.cons_append, parseNumLit]
    show (match parseSignInt (45 :: (natRepr i.natAbs ++ T)) with
      | none => none
      | some (ip, rest1) =>
        let fp := parseFracPart rest1
        let ep := parseExpPart fp.2
        some (ip ++ fp.1 ++ ep.1, ep.2)) = some (45 :: natRepr i.natAbs, T)
    have hsi : parseSignInt (45 :: (natRepr i.natAbs ++ T)) =
        some (45 :: natRepr i.natAbs, T) := by
      rw [parseSignInt, parseIntPart_natRepr i.natAbs T hTW]
      rfl
    rw [hsi]
    simp only [parseFracPart_stop T h]
    simp only [parseExpPart_stop T h]
    simp
  · rw [intRepr, if_neg hi, parseNumLit,
      parseSignInt_natRepr (i.toNat) T hTW]
    show (let fp := parseFracPart T
      let ep := parseExpPart fp.2
      some (natRepr i.toNat ++ fp.1 ++ ep.1, ep.2)) = some (natRepr i.toNat, T)
    simp only [parseFracPart_stop T h]
    simp only [parseExpPart_stop T h]
    simp

/-- A key needing no JSON string escaping: printable ASCII without `"` or `\\`. -/
def PlainKey (k : Text) : Prop := ∀ c ∈ k, 32 ≤ c ∧ c < 128 ∧ c ≠ 34 ∧ c ≠ 92

instance : DecidablePred PlainKey := fun k => by
  unfold PlainKey; infer_instance

lemma parseStringBodyAux_plain (k rest : Text) (h : PlainKey k) :
    ∀ f, k.length < f → parseStringBodyAux f (k ++ 34 :: rest) = some (k, rest) := by
  induction k with
  | nil =>
    intro f hf
    obtain ⟨f1, rfl⟩ : ∃ f1, f = f1 + 1 := ⟨f - 1, by omega⟩
    rfl
  | cons c k1 ih =>
    intro f hf
    obtain ⟨f1, rfl⟩ : ∃ f1, f = f1 + 1 := ⟨f - 1, by omega⟩
    obtain ⟨h32, h128, h34, h92⟩ := h c (by simp)
    have e34 : (c == 34) = false := by
      simp only [beq_eq_false_iff_ne]; exact h34
    have e92 : (c == 92) = false := by
      simp only [beq_eq_false_iff_ne]; exact h92
    rw [List.cons_append]
    simp only [parseStringBodyAux, e34, e92, Bool.false_eq_true, if_false]
    rw [if_neg (by omega : ¬ c < 0x20),
      ih (fun x hx => h x (by simp [hx])) f1 (by simp at hf ⊢; omega)]
    rfl

lemma parseStringBody_plain (k rest : Text) (h : PlainKey k) :
    parseStringBody (k ++ 34 :: rest) = some (k, rest) := by
  rw [parseStringBody]
  exact parseStringBodyAux_plain k rest h _ (by simp; omega)

lemma parseValue_bval (f : Nat) (b : Bool) (T : Text) :
    parseValue (f + 1) (dumpVal (CmdVal.bval b) ++ T) =
      some (Json.bool b, T) := by
  cases b <;> rfl

lemma parseValue_45 (f : Nat) (rest : Text) :
    parseValue (f + 1) (45 :: rest) =
      (parseNumLit (45 :: rest)).map (fun p => (Json.num p.1, p.2)) := rfl

lemma parseValue_digit (f c : Nat) (rest : Text) (h48 : 48 ≤ c) (h57 : c ≤ 57) :
    parseValue (f + 1) (c :: rest) =
      (parseNumLit (c :: rest)).map (fun p => (Json.num p.1, p.2)) := by
  interval_cases c <;> rfl

lemma natRepr_head (n : Nat) : ∃ c cs, natRepr n = c :: cs ∧ 48 ≤ c ∧ c ≤ 57 := by
  by_cases hn : n = 0
  · exact ⟨48, [], by subst hn; rfl, by omega, by omega⟩
  · obtain ⟨c, cs, he, h1, h2⟩ := natReprAux_head_pos (n + 1) n (Nat.lt_succ_self n) (by omega)
    exact ⟨c, cs, by rw [natRepr]; exact he, by omega, h2⟩

lemma parseValue_dumpVal (v : CmdVal) (T : Text) (hT : NumStop T) (f : Nat) :
    parseValue (f + 1) (dumpVal v ++ T) = some (cmdValJson v, T) := by
  cases v with
  | bval b => exact parseValue_bval f b T
  | ival i =>
    have hd : dumpVal (CmdVal.ival i) = intRepr i := rfl
    by_cases hi : i < 0
    · have hv : intRepr i = 45 :: natRepr i.natAbs := by rw [intRepr, if_pos hi]
      rw [hd, hv, List.cons_append, parseValue_45, ← List.cons_append, ← hv,
        parseNumLit_intRepr i T hT]
      rfl
    · have hv : intRepr i = natRepr i.toNat := by rw [intRepr, if_neg hi]
      obtain ⟨c, cs, he, h1, h2⟩ := natRepr_head i.toNat
      rw [hd, hv, he, List.cons_append, parseValue_digit f c _ h1 h2,
        ← List.cons_append, ← he, ← hv, parseNumLit_intRepr i T hT]
      rfl

lemma numStop_44 (x : Text) : NumStop (44 :: x) := by
  refine ⟨by decide, by decide, by decide, by decide⟩

lemma numStop_125 (x : Text) : NumStop (125 :: x) := by
  refine ⟨by decide, by decide, by decide, by decide⟩

lemma parseMembers_quote (f : Nat) (x : Text) :
    parseMembers (f + 1) (34 :: x) =
      (match parseStringBody x with
       | none => none
       | some (k, r1) =>
         match skipWs r1 with
         | 58 :: r2 =>
           match parseValue f r2 with
           | none => none
           | some (v, r3) =>
             match skipWs r3 with
             | 44 :: r4 => (parseMembers f r4).map (fun p => ((k, v) :: p.1, p.2))
             | 125 :: r4 => some ([(k, v)], r4)
             | _ => none
         | _ => none) := rfl

lemma parseMembers_dumps (ps : Command) (T : Text)
    (hk : ∀ p ∈ ps, PlainKey p.1) :
    ∀ f, ps ≠ [] → ps.length + 1 ≤ f →
    parseMembers f (joinSep [44, 32] (ps.map dumpMember) ++ 125 :: T) =
      some (ps.map (fun p => (p.1, cmdValJson p.2)), T) := by
  induction ps with
  | nil => intro f hne _; exact absurd rfl hne
  | cons p ps ih =>
    intro f _ hf
    obtain ⟨f1, rfl⟩ : ∃ f1, f = f1 + 1 := ⟨f - 1, by omega⟩
    obtain ⟨f2, rfl⟩ : ∃ f2, f1 = f2 + 1 := ⟨f1 - 1, by simp at hf; omega⟩
    cases ps with
    | nil =>
      have htext : joinSep [44, 32] ([p].map dumpMember) ++ 125 :: T =
          34 :: (p.1 ++ 34 :: 58 :: 32 :: (dumpVal p.2 ++ 125 :: T)) := by
        simp [joinSep, dumpMember]
      rw [htext, parseMembers_quote,
        parseStringBody_plain p.1 _ (hk p (by simp))]
      show (match skipWs (58 :: 32 :: (dumpVal p.2 ++ 125 :: T)) with
        | 58 :: r2 =>
          match parseValue (f2 + 1) r2 with
          | none => none
          | some (v, r3) =>
            match skipWs r3 with
            | 44 :: r4 => (parseMembers (f2 + 1) r4).map (fun q => (((p.1, v)) :: q.1, q.2))
            | 125 :: r4 => some ([(p.1, v)], r4)
            | _ => none
        | _ => none) = some ([p].map (fun q => (q.1, cmdValJson q.2)), T)
      have hsw : skipWs (58 :: 32 :: (dumpVal p.2 ++ 125 :: T)) =
          58 :: 32 :: (dumpVal p.2 ++ 125 :: T) := rfl
      rw [hsw]
      have hpv : parseValue (f2 + 1) (32 :: (dumpVal p.2 ++ 125 :: T)) =
          some (cmdValJson p.2, 125 :: T) := by
        have hskip : parseValue (f2 + 1) (32 :: (dumpVal p.2 ++ 125 :: T)) =
            parseValue (f2 + 1) (dumpVal p.2 ++ 125 :: T) := rfl
        rw [hskip, parseValue_dumpVal p.2 (125 :: T) (numStop_125 T) f2]
      show (match parseValue (f2 + 1) (32 :: (dumpVal p.2 ++ 125 :: T)) with
        | none => none
        | some (v, r3) =>
          match skipWs r3 with
          | 44 :: r4 => (parseMembers (f2 + 1) r4).map (fun q => (((p.1, v)) :: q.1, q.2))
          | 125 :: r4 => some ([(p.1, v)], r4)
          | _ => none) = some ([p].map (fun q => (q.1, cmdValJson q.2)), T)
      rw [hpv]
      rfl
    | cons q qs =>
      have htext : joinSep [44, 32] ((p :: q :: qs).map dumpMember) ++ 125 :: T =
          34 :: (p.1 ++ 34 :: 58 :: 32 ::
            (dumpVal p.2 ++ 44 :: 32 ::
              (joinSep [44, 32] ((q :: qs).map dumpMember) ++ 125 :: T))) := by
        simp [joinSep, dumpMember]
      rw [htext, parseMembers_quote,
        parseStringBody_plain p.1 _ (hk p (by simp))]
      show (match skipWs (58 :: 32 :: (dumpVal p.2 ++ 44 :: 32 ::
              (joinSep [44, 32] ((q :: qs).map dumpMember) ++ 125 :: T))) with
        | 58 :: r2 =>
          match parseValue (f2 + 1) r2 with
          | none => none
          | some (v, r3) =>
            match skipWs r3 with
            | 44 :: r4 => (parseMembers (f2 + 1) r4).map (fun w => (((p.1, v)) :: w.1, w.2))
            | 125 :: r4 => some ([(p.1, v)], r4)
            | _ => none
        | _ => none) =
        some ((p :: q :: qs).map (fun w => (w.1, cmdValJson w.2)), T)
      have hpv : parseValue (f2 + 1) (32 :: (dumpVal p.2 ++ 44 :: 32 ::
            (joinSep [44, 32] ((q :: qs).map dumpMember) ++ 125 :: T))) =
          some (cmdValJson p.2, 44 :: 32 ::
            (joinSep [44, 32] ((q :: qs).map dumpMember) ++ 125 :: T)) := by
        have hskip : parseValue (f2 + 1) (32 :: (dumpVal p.2 ++ 44 :: 32 ::
              (joinSep [44, 32] ((q :: qs).map dumpMember) ++ 125 :: T))) =
            parseValue (f2 + 1) (dumpVal p.2 ++ 44 :: 32 ::
              (joinSep [44, 32] ((q :: qs).map dumpMember) ++ 125 :: T)) := rfl
        rw [hskip, parseValue_dumpVal p.2 _ (numStop_44 _) f2]
      show (match parseValue (f2 + 1) (32 :: (dumpVal p.2 ++ 44 :: 32 ::
              (joinSep [44, 32] ((q :: qs).map dumpMember) ++ 125 :: T))) with
        | none => none
        | some (v, r3) =>
          match skipWs r3 with
          | 44 :: r4 => (parseMembers (f2 + 1) r4).map (fun w => (((p.1, v)) :: w.1, w.2))
          | 125 :: r4 => some ([(p.1, v)], r4)
          | _ => none) =
        some ((p :: q :: qs).map (fun w => (w.1, cmdValJson w.2)), T)
      rw [hpv]
      show (parseMembers (f2 + 1) (32 ::
          (joinSep [44, 32] ((q :: qs).map dumpMember) ++ 125 :: T))).map
            (fun w => (((p.1, cmdValJson p.2)) :: w.1, w.2)) =
        some ((p :: q :: qs).map (fun w => (w.1, cmdValJson w.2)), T)
      have hskipm : parseMembers (f2 + 1) (32 ::
            (joinSep [44, 32] ((q :: qs).map dumpMember) ++ 125 :: T)) =
          parseMembers (f2 + 1)
            (joinSep [44, 32] ((q :: qs).map dumpMember) ++ 125 :: T) := rfl
      rw [hskipm, ih (fun x hx => hk x (by simp [hx])) (f2 + 1) (by simp)
        (by simp at hf ⊢; omega)]
      rfl

lemma joinSep_length_ge (sep : Text) (xs : List Text) (h : ∀ x ∈ xs, x ≠ []) :
    xs.length ≤ (joinSep sep xs).length := by
  induction xs with
  | nil => simp [joinSep]
  | cons x xs ih =>
    cases xs with
    | nil =>
      have := List.length_pos.mpr (h x (by simp))
      simp [joinSep]
      omega
    | cons y ys =>
      have hx := h x (by simp)
      have hrec := ih (fun z hz => h z (by simp [hz]))
      rw [joinSep]
      simp only [List.length_cons, List.length_append] at hrec ⊢
      have : 1 ≤ x.length := List.length_pos.mpr hx
      omega

lemma dumpMember_ne_nil (p : Text × CmdVal) : dumpMember p ≠ [] := by
  simp [dumpMember]

lemma jsonTrim_braced (mid : Text) :
    jsonTrim (123 :: (mid ++ [125])) = 123 :: (mid ++ [125]) := by
  rw [jsonTrim]
  have h1 : (123 :: (mid ++ [125])).dropWhile jsonIsSpace = 123 :: (mid ++ [125]) :=
    List.dropWhile_cons_of_neg (by decide)
  rw [h1, dropTrailing]
  have h2 : (123 :: (mid ++ [125])).reverse = 125 :: (mid.reverse ++ [123]) := by
    simp
  rw [h2, List.dropWhile_cons_of_neg (by decide)]
  simp

lemma parseValue_obj34 (f : Nat) (z : Text) :
    parseValue (f + 1) (123 :: 34 :: z) =
      (parseMembers f (34 :: z)).map (fun p => (Json.obj p.1, p.2)) := rfl

lemma dumps_parse (cmd : Command) (hne : cmd ≠ []) (hk : ∀ p ∈ cmd, PlainKey p.1) :
    jsonParse (json_dumps_command cmd) =
      some (Json.obj (cmd.map (fun p => (p.1, cmdValJson p.2)))) := by
  obtain ⟨p, ps, rfl⟩ : ∃ p ps, cmd = p :: ps := by
    cases cmd with
    | nil => exact absurd rfl hne
    | cons p ps => exact ⟨p, ps, rfl⟩
  set mid := joinSep [44, 32] ((p :: ps).map dumpMember) with hmid
  obtain ⟨z, hz⟩ : ∃ z, mid = 34 :: z := by
    rw [hmid]
    cases ps with
    | nil => exact ⟨p.1 ++ 34 :: 58 :: 32 :: dumpVal p.2, by simp [joinSep, dumpMember]⟩
    | cons q qs =>
      exact ⟨p.1 ++ 34 :: 58 :: 32 :: (dumpVal p.2 ++ [44, 32] ++
        joinSep [44, 32] ((q :: qs).map dumpMember)),
        by simp [joinSep, dumpMember]⟩
  have hs : json_dumps_command (p :: ps) = 123 :: (mid ++ [125]) := by
    rw [json_dumps_command, ← hmid]
    rfl
  have hfuel : (p :: ps).length + 1 ≤ (123 :: (mid ++ [125])).length := by
    have hlen : (p :: ps).length ≤ mid.length := by
      have := joinSep_length_ge [44, 32] ((p :: ps).map dumpMember)
        (fun x hx => by
          obtain ⟨q, _, rfl⟩ := List.mem_map.mp hx
          exact dumpMember_ne_nil q)
      simpa using this
    simp only [List.length_cons, List.length_append]
    simp at hlen ⊢
    omega
  rw [hs, jsonParse]
  simp only [jsonTrim_braced]
  have hlen2 : (123 :: (mid ++ [125])).length = mid.length + 2 := by simp
  have hform : 123 :: (mid ++ [125]) = 123 :: 34 :: (z ++ [125]) := by
    rw [hz]; rfl
  rw [hform] at hlen2 ⊢
  rw [parseValue_obj34]
  have hback : (34 :: (z ++ [125]) : Text) = mid ++ 125 :: ([] : Text) := by
    rw [hz]; rfl
  rw [hback, hmid,
    parseMembers_dumps (p :: ps) [] hk _ (by simp) (by
      rw [← hmid]
      have : (123 :: 34 :: (z ++ [125]) : Text).length = mid.length + 2 := by
        rw [hz]; simp
      omega)]
  rfl

lemma dumpVal_lt (v : CmdVal) : ∀ c ∈ dumpVal v, c < 128 := by
  cases v with
  | bval b => cases b <;> decide
  | ival i =>
    intro c hc
    rw [dumpVal] at hc
    by_cases hi : i < 0
    · rw [intRepr, if_pos hi] at hc
      rcases List.mem_cons.mp hc with h | h
      · omega
      · have := natRepr_digits i.natAbs c h
        omega
    · rw [intRepr, if_neg hi] at hc
      have := natRepr_digits i.toNat c hc
      omega

lemma mem_joinSep (sep : Text) (xs : List Text) (c : Nat) :
    c ∈ joinSep sep xs → c ∈ sep ∨ ∃ x ∈ xs, c ∈ x := by
  induction xs with
  | nil => intro h; simp [joinSep] at h
  | cons x xs ih =>
    cases xs with
    | nil =>
      intro h
      simp [joinSep] at h
      exact Or.inr ⟨x, by simp, h⟩
    | cons y ys =>
      intro h
      rw [joinSep] at h
      rcases List.mem_append.mp h with h1 | h1
      · rcases List.mem_append.mp h1 with h2 | h2
        · exact Or.inr ⟨x, by simp, h2⟩
        · exact Or.inl h2
      · rcases ih h1 with h2 | ⟨w, hw, hcw⟩
        · exact Or.inl h2
        · exact Or.inr ⟨w, by simp at hw ⊢; tauto, hcw⟩

lemma dumps_ascii (cmd : Command) (hk : ∀ p ∈ cmd, PlainKey p.1) :
    ∀ c ∈ json_dumps_command cmd, c < 128 := by
  intro c hc
  rw [json_dumps_command] at hc
  rcases List.mem_append.mp hc with h1 | h1
  · rcases List.mem_append.mp h1 with h2 | h2
    · simp at h2; omega
    · rcases mem_joinSep _ _ _ h2 with h3 | ⟨x, hx, hcx⟩
      · simp at h3; omega
      · obtain ⟨q, hq, rfl⟩ := List.mem_map.mp hx
        rw [dumpMember] at hcx
        rcases List.mem_append.mp hcx with h4 | h4
        · rcases List.mem_append.mp h4 with h5 | h5
          · rcases List.mem_append.mp h5 with h6 | h6
            · simp at h6; omega
            · exact (hk q hq c h6).2.1
          · simp at h5; omega
        · exact dumpVal_lt q.2 c h4
  · simp at h1; omega

lemma dumps_valid (cmd : Command) (hk : ∀ p ∈ cmd, PlainKey p.1) :
    ValidText (json_dumps_command cmd) := by
  intro c hc
  have := dumps_ascii cmd hk c hc
  omega

lemma commandKeys_plain : ∀ k ∈ commandKeys, PlainKey k := by decide

/-- C5: a non-empty command whose keys are among the recognized command
keys is sent as exactly one UDP datagram, and that datagram's payload
decodes (UTF-8, then `json.loads`) to a JSON object holding exactly the
given keys and serialized values, in order, and nothing else. -/
theorem send_command_exact (cmd : Command) (hne : cmd ≠ [])
    (hk : ∀ p ∈ cmd, p.1 ∈ commandKeys) :
    (send_command cmd).length = 1 ∧
    ∀ d ∈ send_command cmd,
      (utf8Decode d).bind jsonParse =
        some (Json.obj (cmd.map (fun p => (p.1, cmdValJson p.2)))) := by
  have hpk : ∀ p ∈ cmd, PlainKey p.1 := fun p hp => commandKeys_plain p.1 (hk p hp)
  refine ⟨rfl, ?_⟩
  intro d hd
  have hdq : d = utf8Encode (json_dumps_command cmd) := by
    simpa [send_command] using hd
  subst hdq
  rw [utf8Decode_utf8Encode _ (dumps_valid cmd hpk)]
  show jsonParse (json_dumps_command cmd) = _
  exact dumps_parse cmd hne hpk

/-- Witness: `send(\x7bpower: true\x7d)` is one datagram decoding to exactly
`\x7b"power": true\x7d`. -/
theorem send_command_exact_w :
    (([(strCps "power", CmdVal.bval true)] : Command) ≠ [] ∧
      ∀ p ∈ ([(strCps "power", CmdVal.bval true)] : Command), p.1 ∈ commandKeys) ∧
    ((send_command [(strCps "power", CmdVal.bval true)]).length = 1 ∧
     ∀ d ∈ send_command [(strCps "power", CmdVal.bval true)],
       (utf8Decode d).bind jsonParse =
         some (Json.obj [(strCps "power", cmdValJson (CmdVal.bval true))])) :=
  ⟨⟨by simp, by decide⟩,
    send_command_exact [(strCps "power", CmdVal.bval true)] (by simp) (by decide)⟩


end FanControl
